import Mathlib

/-
Verification of the ChainTalk real-time chat server (Rust sources under src/).

The Rust code is shallowly embedded as executable Lean definitions:
- Redis (the nonce store) is modelled as the list of currently present nonce
  tokens; SET stores, EXISTS tests membership, DEL removes.
- `HashMap<String, V>` is modelled as an association list with replace-on-insert
  semantics; `HashSet<String>` as a duplicate-free list.
- External cryptographic collaborators (the siwe parser/verifier, ethers
  signature recovery, EIP-55 checksumming, JWT signing) are passed in as oracle
  functions: the embedding fixes only the control flow of the repository's own
  code around them, which is what the claims are about.
- Nondeterministic data (UUIDs, timestamps) is either passed as a parameter or
  elided from message payloads; it does not affect any claim.
-/

namespace ChainTalk

/-- Error taxonomy from src/error.rs (`AppError`). -/
inductive AppError where
  | AuthenticationFailed (msg : String)
  | AuthorizationFailed (msg : String)
  | InvalidSignature
  | InvalidNonce
  | TokenGateFailed (msg : String)
  | DatabaseError (msg : String)
  | BlockchainError (msg : String)
  | WebSocketError (msg : String)
  | SerializationError (msg : String)
  | InvalidRequest (msg : String)
  | BadRequest (msg : String)
  | InternalError (msg : String)
  deriving DecidableEq, Repr

/-- Uniswap V3 swap payload from src/models.rs (`UniswapV3SwapDetails`). -/
structure UniswapV3SwapDetails where
  sender : String
  recipient : String
  amount0 : String
  amount1 : String
  sqrt_price_x96 : String
  liquidity : String
  tick : Int
  pool_address : String
  token0 : String
  token1 : String
  deriving DecidableEq, Repr

/-- Chain event envelope from src/models.rs (`OnChainEvent`); the random
UUID `id` and wall-clock `timestamp` are elided. -/
structure OnChainEvent where
  event_type : String
  transaction_hash : String
  block_number : Nat
  details : UniswapV3SwapDetails
  deriving DecidableEq, Repr

/-- Outbound message type from src/models.rs (`ServerMessage`); random ids and
timestamps are elided from the payloads. -/
inductive ServerMessage where
  | NewText (sender : String) (text : String) (room : String)
  | UserJoined (user : String) (room : String) (ens_name : Option String)
  | UserLeft (user : String) (room : String) (ens_name : Option String)
  | RoomUsers (room : String) (users : List String)
  | ChainEvent (ev : OnChainEvent)
  | Error (message : String)
  | AuthSuccess (user_address : String) (ens_name : Option String)
  | AuthFailed (error : String)
  | Pong
  | OnlineUsers (users : List (String × Option String)) (room : String)
  deriving DecidableEq, Repr

/-- Inbound command type from src/models.rs (`ClientMessage`). -/
inductive ClientMessage where
  | Authenticate (message : String) (signature : String)
  | SimpleAuth (address : String) (message : String) (signature : String) (nonce : String)
  | SendText (room : String) (text : String)
  | JoinRoom (room : String)
  | LeaveRoom (room : String)
  | Ping
  deriving DecidableEq, Repr

/-- Association-list lookup, modelling `HashMap::get`. -/
def mapLookup {A : Type} (k : String) : List (String × A) → Option A
  | [] => none
  | p :: m => if p.1 = k then some p.2 else mapLookup k m

/-- Association-list key removal, modelling `HashMap::remove`. -/
def mapErase {A : Type} (k : String) (m : List (String × A)) : List (String × A) :=
  m.filter (fun p => !(p.1 == k))

/-- Association-list insert with replace semantics, modelling `HashMap::insert`. -/
def mapInsert {A : Type} (k : String) (v : A) (m : List (String × A)) : List (String × A) :=
  (k, v) :: mapErase k m

/-- In-place update of the entry for a key, modelling `HashMap::get_mut`
followed by a mutation (identity when the key is absent). -/
def mapUpdate {A : Type} (k : String) (f : A → A) : List (String × A) → List (String × A)
  | [] => []
  | p :: m => if p.1 = k then (p.1, f p.2) :: mapUpdate k f m else p :: mapUpdate k f m

/-- The keys of an association list. -/
def mapKeys {A : Type} (m : List (String × A)) : List String :=
  m.map (fun p => p.1)

/-- Duplicate-free set insert, modelling `HashSet::insert`. -/
def setInsert (x : String) (s : List String) : List String :=
  if s.contains x then s else x :: s

/-- Set removal, modelling `HashSet::remove`. -/
def setRemove (x : String) (s : List String) : List String :=
  s.filter (fun y => !(y == x))

/-- Connection/session record from src/state.rs (`Client`); the broadcast
sender handle is elided (deliveries are tracked as explicit event lists). -/
structure Client where
  id : String
  user_address : String
  ens_name : Option String
  current_rooms : List String
  deriving DecidableEq, Repr

/-- Room record from src/state.rs (`Room`). -/
structure Room where
  name : String
  users : List String
  message_history : List ServerMessage
  max_history : Nat
  deriving DecidableEq, Repr

/-- Global registry state from src/state.rs (`AppState`): the two maps plus the
Redis nonce store (list of currently live nonce tokens). -/
structure AppState where
  clients : List (String × Client)
  rooms : List (String × Room)
  nonces : List String
  deriving DecidableEq, Repr

/-- A fresh room as constructed in `AppState::new` and `join_room`. -/
def newRoom (name : String) : Room :=
  { name := name, users := [], message_history := [], max_history := 100 }

/-- Initial state built by `AppState::new`: only the default room. -/
def initialState : AppState :=
  { clients := [], rooms := [("general", newRoom "general")], nonces := [] }

/-- src/state.rs `add_client`: insert a fresh session (last writer wins);
the random UUID is passed in as `id`. -/
def add_client (user_address : String) (ens_name : Option String) (id : String)
    (s : AppState) : AppState :=
  let client : Client :=
    { id := id, user_address := user_address, ens_name := ens_name, current_rooms := [] }
  { s with clients := mapInsert user_address client s.clients }

/-- src/state.rs `join_room`: create the room if absent, add the address to the
room's member set, then add the room to the session's set when the session
exists; returns whether it did. -/
def join_room (user_address room_name : String) (s : AppState) : AppState × Bool :=
  let rooms0 := if (mapLookup room_name s.rooms).isSome then s.rooms
                else mapInsert room_name (newRoom room_name) s.rooms
  let rooms1 := mapUpdate room_name
      (fun r => { r with users := setInsert user_address r.users }) rooms0
  match mapLookup user_address s.clients with
  | some _ =>
      let clients1 := mapUpdate user_address
        (fun c => { c with current_rooms := setInsert room_name c.current_rooms }) s.clients
      ({ s with rooms := rooms1, clients := clients1 }, true)
  | none => ({ s with rooms := rooms1 }, false)

/-- src/state.rs `leave_room`: remove the address from the room's member set
and the room from the session's set (each a no-op when absent). -/
def leave_room (user_address room_name : String) (s : AppState) : AppState :=
  let rooms1 := mapUpdate room_name
    (fun r => { r with users := setRemove user_address r.users }) s.rooms
  let clients1 := mapUpdate user_address
    (fun c => { c with current_rooms := setRemove room_name c.current_rooms }) s.clients
  { s with rooms := rooms1, clients := clients1 }

/-- src/state.rs `remove_client`: detach the session, then call `leave_room`
once for every room it had joined. The second component records, in order, the
rooms for which the leave mutation was invoked. -/
def remove_client (user_address : String) (s : AppState) : AppState × List String :=
  match mapLookup user_address s.clients with
  | none => (s, [])
  | some client =>
      let s1 := { s with clients := mapErase user_address s.clients }
      (client.current_rooms.foldl (fun acc r => leave_room user_address r acc) s1,
       client.current_rooms)

/-- History push from src/state.rs `broadcast_to_room`: append, then evict the
oldest entry when the bound is exceeded. -/
def push_history (maxHist : Nat) (h : List ServerMessage) (m : ServerMessage) :
    List ServerMessage :=
  let h1 := h ++ [m]
  if h1.length > maxHist then h1.drop 1 else h1

/-- src/state.rs `broadcast_to_room`: append to the room history (bounded),
then deliver to every member that has a live client. The second component is
the list of (recipient, message) deliveries. -/
def broadcast_to_room (room_name : String) (message : ServerMessage) (s : AppState) :
    AppState × List (String × ServerMessage) :=
  match mapLookup room_name s.rooms with
  | none => (s, [])
  | some room =>
      let h2 := push_history room.max_history room.message_history message
      let deliveries := room.users.filterMap
        (fun a => if (mapLookup a s.clients).isSome then some (a, message) else none)
      let rooms1 := mapUpdate room_name (fun r => { r with message_history := h2 }) s.rooms
      ({ s with rooms := rooms1 }, deliveries)

/-- Publishing a sequence of messages to one room (iterated `broadcast_to_room`). -/
def publish_sequence (room_name : String) (msgs : List ServerMessage) (s : AppState) :
    AppState :=
  msgs.foldl (fun st m => (broadcast_to_room room_name m st).1) s

/-- Display rendering of `AppError` (the thiserror `#[error]` strings in
src/error.rs). -/
def AppError.display : AppError → String
  | .AuthenticationFailed m => "Authentication failed: " ++ m
  | .AuthorizationFailed m => "Authorization failed: " ++ m
  | .InvalidSignature => "Invalid signature"
  | .InvalidNonce => "Invalid nonce"
  | .TokenGateFailed m => "Token gate check failed: " ++ m
  | .DatabaseError m => "Database error: " ++ m
  | .BlockchainError m => "Blockchain error: " ++ m
  | .WebSocketError m => "WebSocket error: " ++ m
  | .SerializationError m => "Serialization error: " ++ m
  | .InvalidRequest m => "Invalid request: " ++ m
  | .BadRequest m => "Bad request: " ++ m
  | .InternalError m => "Internal server error: " ++ m

/-- Hex digit test, matching the character class of the regex
`0x[a-fA-F0-9]\x7b40\x7d` in src/auth.rs `normalize_siwe_message`. -/
def isHexDigitChar (c : Char) : Bool :=
  c.isDigit || ('a' ≤ c && c ≤ 'f') || ('A' ≤ c && c ≤ 'F')

/-- Whether the regex `0x[a-fA-F0-9]\x7b40\x7d` matches at the head of the
character list. -/
def addrMatchAt (cs : List Char) : Bool :=
  match cs with
  | '0' :: 'x' :: rest => ((rest.take 40).length == 40) && (rest.take 40).all isHexDigitChar
  | _ => false

/-- Left-to-right non-overlapping scan of `Regex::replace_all` with the pattern
`0x[a-fA-F0-9]\x7b40\x7d`, rewriting each match with the EIP-55 `to_checksum`
oracle (`Address::from_str` always succeeds on a 0x-prefixed 40-hex-digit
match, so the replacement is always the checksummed form). The fuel is the
remaining character count; every step consumes at least one character. -/
def normalizeChars (checksum : String → String) : Nat → List Char → List Char
  | 0, cs => cs
  | _ + 1, [] => []
  | fuel + 1, c :: rest =>
      if addrMatchAt (c :: rest) then
        (checksum (String.mk ((c :: rest).take 42))).data ++
          normalizeChars checksum fuel ((c :: rest).drop 42)
      else c :: normalizeChars checksum fuel rest

/-- src/auth.rs `normalize_siwe_message`: rewrite every 40-hex-digit address
substring to its checksummed form. -/
def normalize_siwe_message (checksum : String → String) (s : String) : String :=
  String.mk (normalizeChars checksum s.data.length s.data)

/-- The scanner of `normalize_siwe_message` at its canonical fuel. -/
def normList (checksum : String → String) (cs : List Char) : List Char :=
  normalizeChars checksum cs.length cs

/-- The fields of a parsed SIWE message that this codebase reads. -/
structure SiweMessage where
  nonce : String
  address : String
  deriving DecidableEq, Repr

/-- Oracles for the external collaborators of the structured (SIWE) scheme:
the siwe statement grammar parser, EIP-55 checksumming, hex decoding of the
signature string, and the signature recovery check `Message::verify`. -/
structure SiweOracle where
  parse : String → Option SiweMessage
  checksum : String → String
  hexOk : String → Bool
  siweVerify : SiweMessage → String → Bool

/-- Verified identity from src/models.rs (`UserAuth`). -/
structure UserAuth where
  address : String
  ens_name : Option String
  token_holdings : List (String × String)
  nft_holdings : List String
  deriving DecidableEq, Repr

/-- The two-attempt parse step at the top of src/auth.rs
`verify_siwe_message`: parse the original statement; on failure normalize and
re-parse exactly once. The second component records every string handed to the
parser, in order. -/
def siweParsePhase (ora : SiweOracle) (message_str : String) :
    Option SiweMessage × List String :=
  match ora.parse message_str with
  | some m => (some m, [message_str])
  | none =>
      let processed := normalize_siwe_message ora.checksum message_str
      match ora.parse processed with
      | some m => (some m, [message_str, processed])
      | none => (none, [message_str, processed])

/-- src/auth.rs `verify_siwe_message`: two-attempt parse, nonce existence
check, nonce deletion, hex-decode of the signature, signature verification,
then identity construction. `resolve_ens` always fails in this codebase and is
recorded as `none`; the holdings lookups return empty. The second component is
the nonce store after the call. -/
def verify_siwe_message (ora : SiweOracle) (message_str signature : String)
    (store : List String) : Except AppError UserAuth × List String :=
  match (siweParsePhase ora message_str).1 with
  | none => (.error .InvalidSignature, store)
  | some message =>
      if store.contains message.nonce then
        let store1 := store.filter (fun x => !(x == message.nonce))
        if ora.hexOk signature then
          if ora.siweVerify message signature then
            (.ok { address := ora.checksum message.address, ens_name := none,
                   token_holdings := [], nft_holdings := [] }, store1)
          else (.error .InvalidSignature, store1)
        else (.error .InvalidSignature, store1)
      else (.error .InvalidNonce, store)

/-- JWT claims from src/models.rs (`Claims`), with times as integer Unix
seconds. -/
structure Claims where
  sub : String
  exp : Int
  iat : Int
  ens : Option String
  deriving DecidableEq, Repr

/-- A signed session token: the jsonwebtoken library is modelled abstractly as
a token that records the signing secret and the embedded claims (forgery is
out of scope; tampering would change one of the two fields). -/
structure Jwt where
  secret : String
  claims : Claims
  deriving DecidableEq, Repr

/-- src/auth.rs `generate_jwt`: subject is the verified address, issued-at is
now, expiry is now plus 24 hours (86400 seconds), optional ENS name. -/
def generate_jwt (jwt_secret : String) (now : Int) (user_auth : UserAuth) : Jwt :=
  { secret := jwt_secret,
    claims := { sub := user_auth.address, exp := now + 86400, iat := now,
                ens := user_auth.ens_name } }

/-- Modelled behaviour of `jsonwebtoken::decode` under `Validation::default()`:
the signature check (same secret) and the expiry check with the library's
default 60-second leeway; failures carry the library's error rendering. -/
def decode_jwt (jwt_secret : String) (now : Int) (token : Jwt) : Except String Claims :=
  if token.secret = jwt_secret then
    if token.claims.exp < now - 60 then .error "ExpiredSignature"
    else .ok token.claims
  else .error "InvalidSignature"

/-- src/auth.rs `verify_jwt`: decode, with any jsonwebtoken error converted by
the `From` impl in src/error.rs into `AuthenticationFailed`. -/
def verify_jwt (jwt_secret : String) (now : Int) (token : Jwt) :
    Except AppError Claims :=
  match decode_jwt jwt_secret now token with
  | .ok c => .ok c
  | .error e => .error (.AuthenticationFailed e)

/-- Rust `str::to_lowercase` (character-wise lowering; the addresses compared
here are ASCII). -/
def strToLower (s : String) : String := String.mk (s.data.map Char.toLower)

/-- Rust `char::is_whitespace`: the Unicode White_Space property, i.e. the
code points U+0009-U+000D, U+0020, U+0085, U+00A0, U+1680, U+2000-U+200A,
U+2028, U+2029, U+202F, U+205F and U+3000. -/
def rustIsWhitespace (c : Char) : Bool :=
  let n := c.toNat
  (0x9 ≤ n && n ≤ 0xD) || n == 0x20 || n == 0x85 || n == 0xA0 || n == 0x1680 ||
  (0x2000 ≤ n && n ≤ 0x200A) || n == 0x2028 || n == 0x2029 || n == 0x202F ||
  n == 0x205F || n == 0x3000

/-- Rust `str::trim`: strip leading and trailing Unicode whitespace. -/
def rustTrim (s : String) : String :=
  String.mk ((s.data.dropWhile rustIsWhitespace).reverse.dropWhile rustIsWhitespace).reverse

/-- Oracles for the external collaborators of the simple scheme in
src/websocket.rs `handle_simple_authentication`: `Signature::from_str`,
address recovery from the personal-message hash, `Address::from_str` on the
claimed address, and EIP-55 checksumming. -/
structure SimpleOracle where
  parseSig : String → Option String
  recover : String → String → Option String
  parseAddr : String → Option String
  checksum : String → String

/-- Connection-local state of src/websocket.rs `handle_connection`:
`user_address`, `authenticated`, and whether `client_receiver` is set. -/
structure ConnState where
  user_address : Option String
  authenticated : Bool
  has_client_receiver : Bool
  deriving DecidableEq, Repr

/-- Connection-local state at the start of `handle_connection`. -/
def initialConn : ConnState :=
  { user_address := none, authenticated := false, has_client_receiver := false }

/-- Outcome of one `handle_client_message` call: the returned
`Result<bool>`, the registry state and connection state afterwards, the
room publishes performed (`broadcast_to_room` calls as (room, message)
pairs), and the direct per-session mailbox sends. -/
structure StepOut where
  result : Except AppError Bool
  app : AppState
  conn : ConnState
  roomEvents : List (String × ServerMessage)
  mailboxEvents : List (String × ServerMessage)
  deriving Repr

/-- A step that only reports a result and changes nothing. -/
def StepOut.noop (r : Except AppError Bool) (app : AppState) (conn : ConnState) : StepOut :=
  { result := r, app := app, conn := conn, roomEvents := [], mailboxEvents := [] }

/-- src/websocket.rs `handle_siwe_authentication`: verify the SIWE message
(errors are wrapped into `AuthenticationFailed`), attach the session, subscribe
the private mailbox, send auth-success, auto-join "general" and broadcast the
join. The random client UUID is passed in as `uuid`. -/
def handle_siwe_authentication (ora : SiweOracle) (uuid : String)
    (message signature : String) (app : AppState) (conn : ConnState) : StepOut :=
  match verify_siwe_message ora message signature app.nonces with
  | (.error e, store1) =>
      StepOut.noop
        (.error (.AuthenticationFailed ("SIWE verification failed: " ++ AppError.display e)))
        { app with nonces := store1 } conn
  | (.ok user_auth, store1) =>
      let app1 := add_client user_auth.address user_auth.ens_name uuid
        { app with nonces := store1 }
      let conn1 : ConnState :=
        { user_address := some user_auth.address, authenticated := true,
          has_client_receiver := (mapLookup user_auth.address app1.clients).isSome }
      let mbox := match mapLookup user_auth.address app1.clients with
        | some _ => [(user_auth.address,
            ServerMessage.AuthSuccess user_auth.address user_auth.ens_name)]
        | none => []
      let app2 := (join_room user_auth.address "general" app1).1
      let joinMsg := ServerMessage.UserJoined user_auth.address "general" none
      let app3 := (broadcast_to_room "general" joinMsg app2).1
      { result := .ok true, app := app3, conn := conn1,
        roomEvents := [("general", joinMsg)], mailboxEvents := mbox }

/-- src/websocket.rs `handle_simple_authentication`: nonce existence check and
deletion against the store, signature parse, address recovery, claimed-address
parse (its failure is `InvalidRequest` carrying the parse-error text, modelled
as a fixed string), case-insensitive checksummed comparison, then the same
attach/subscribe/auto-join sequence as the structured scheme. -/
def handle_simple_authentication (ora : SimpleOracle) (uuid : String)
    (address message signature nonce : String) (app : AppState) (conn : ConnState) :
    StepOut :=
  if app.nonces.contains nonce then
    let app0 := { app with nonces := app.nonces.filter (fun x => !(x == nonce)) }
    match ora.parseSig signature with
    | none => StepOut.noop (.error .InvalidSignature) app0 conn
    | some sig =>
      match ora.recover sig message with
      | none => StepOut.noop (.error .InvalidSignature) app0 conn
      | some recovered =>
        match ora.parseAddr address with
        | none => StepOut.noop (.error (.InvalidRequest "invalid address")) app0 conn
        | some claimed =>
          let recovered_checksum := ora.checksum recovered
          let expected_checksum := ora.checksum claimed
          if strToLower recovered_checksum ≠ strToLower expected_checksum then
            StepOut.noop (.error .InvalidSignature) app0 conn
          else
            let app1 := add_client recovered_checksum none uuid app0
            let conn1 : ConnState :=
              { user_address := some recovered_checksum, authenticated := true,
                has_client_receiver := (mapLookup recovered_checksum app1.clients).isSome }
            let mbox := match mapLookup recovered_checksum app1.clients with
              | some _ => [(recovered_checksum,
                  ServerMessage.AuthSuccess recovered_checksum none)]
              | none => []
            let app2 := (join_room recovered_checksum "general" app1).1
            let joinMsg := ServerMessage.UserJoined recovered_checksum "general" none
            let app3 := (broadcast_to_room "general" joinMsg app2).1
            { result := .ok true, app := app3, conn := conn1,
              roomEvents := [("general", joinMsg)], mailboxEvents := mbox }
  else StepOut.noop (.error .InvalidNonce) app conn

/-- Shortened address fallback display name in src/websocket.rs
`handle_send_text` (first 6 and last 4 characters; addresses are ASCII). -/
def shortenAddr (addr : String) : String :=
  if addr.length > 10 then (addr.take 6) ++ "..." ++ (addr.drop (addr.length - 4))
  else addr

/-- src/websocket.rs `handle_send_text`: reject empty trimmed text and text
over 1000 bytes with `InvalidRequest`, a missing client with
`AuthenticationFailed`, and a room the session has not joined with
`AuthorizationFailed`; otherwise build the text message (ENS name or shortened
address) destined for an asynchronous `broadcast_to_room`. -/
def handle_send_text (app : AppState) (user_address room text : String) :
    Except AppError (String × ServerMessage) :=
  if (rustTrim text).isEmpty then .error (.InvalidRequest "Message cannot be empty")
  else if text.utf8ByteSize > 1000 then
    .error (.InvalidRequest "Message too long (max 1000 characters)")
  else
    match mapLookup user_address app.clients with
    | none => .error (.AuthenticationFailed "Client not found")
    | some client =>
      if client.current_rooms.contains room then
        let display_name := client.ens_name.getD (shortenAddr user_address)
        .ok (room, ServerMessage.NewText display_name text room)
      else .error (.AuthorizationFailed "User not in room")

/-- src/state.rs `get_room_users`. -/
def get_room_users (room_name : String) (s : AppState) : List String :=
  match mapLookup room_name s.rooms with
  | some room => room.users
  | none => []

/-- src/websocket.rs `handle_join_room`: join, and on success broadcast the
join under the display name and send the member list to the joiner's mailbox.
(The source unwraps `get_client` after a successful join; the impossible
`none` branch is a silent no-op here.) -/
def handle_join_room_step (app : AppState) (conn : ConnState)
    (user_addr room : String) : StepOut :=
  let res := join_room user_addr room app
  if res.2 then
    match mapLookup user_addr res.1.clients with
    | none => StepOut.noop (.ok true) res.1 conn
    | some client =>
      let display_name := client.ens_name.getD user_addr
      let joinMsg := ServerMessage.UserJoined display_name room none
      let app2 := (broadcast_to_room room joinMsg res.1).1
      let users := get_room_users room app2
      let mbox := match mapLookup user_addr app2.clients with
        | some _ => [(user_addr, ServerMessage.RoomUsers room users)]
        | none => []
      { result := .ok true, app := app2, conn := conn,
        roomEvents := [(room, joinMsg)], mailboxEvents := mbox }
  else StepOut.noop (.ok true) res.1 conn

/-- src/websocket.rs `handle_leave_room`: failing with `AuthenticationFailed`
when the client is missing, otherwise leave and broadcast the departure under
the display name. -/
def handle_leave_room_step (app : AppState) (conn : ConnState)
    (user_addr room : String) : StepOut :=
  match mapLookup user_addr app.clients with
  | none => StepOut.noop (.error (.AuthenticationFailed "Client not found")) app conn
  | some client =>
    let display_name := client.ens_name.getD user_addr
    let app1 := leave_room user_addr room app
    let leaveMsg := ServerMessage.UserLeft display_name room none
    let app2 := (broadcast_to_room room leaveMsg app1).1
    { result := .ok true, app := app2, conn := conn,
      roomEvents := [(room, leaveMsg)], mailboxEvents := [] }

/-- The oracle bundle for both authentication schemes. -/
structure Oracles where
  siwe : SiweOracle
  simple : SimpleOracle

/-- src/websocket.rs `handle_client_message`: the central dispatch. The two
authenticate commands are rejected with `AuthenticationFailed
"Already authenticated"` once authenticated; every other command is rejected
with `AuthenticationFailed "Not authenticated"` until then. When authenticated,
the source unwraps `user_address`; the unreachable `none` case defaults to the
empty string. -/
def handle_client_message (ora : Oracles) (uuid : String) (cmd : ClientMessage)
    (app : AppState) (conn : ConnState) : StepOut :=
  match cmd with
  | .Authenticate message signature =>
      if !conn.authenticated then
        handle_siwe_authentication ora.siwe uuid message signature app conn
      else StepOut.noop (.error (.AuthenticationFailed "Already authenticated")) app conn
  | .SimpleAuth address message signature nonce =>
      if !conn.authenticated then
        handle_simple_authentication ora.simple uuid address message signature nonce app conn
      else StepOut.noop (.error (.AuthenticationFailed "Already authenticated")) app conn
  | .SendText room text =>
      if !conn.authenticated then
        StepOut.noop (.error (.AuthenticationFailed "Not authenticated")) app conn
      else
        let user_addr := conn.user_address.getD ""
        match handle_send_text app user_addr room text with
        | .error e => StepOut.noop (.error e) app conn
        | .ok (rm, msg) =>
            { result := .ok true, app := (broadcast_to_room rm msg app).1, conn := conn,
              roomEvents := [(rm, msg)], mailboxEvents := [] }
  | .JoinRoom room =>
      if !conn.authenticated then
        StepOut.noop (.error (.AuthenticationFailed "Not authenticated")) app conn
      else handle_join_room_step app conn (conn.user_address.getD "") room
  | .LeaveRoom room =>
      if !conn.authenticated then
        StepOut.noop (.error (.AuthenticationFailed "Not authenticated")) app conn
      else handle_leave_room_step app conn (conn.user_address.getD "") room
  | .Ping =>
      if !conn.authenticated then
        StepOut.noop (.error (.AuthenticationFailed "Not authenticated")) app conn
      else
        let user_addr := conn.user_address.getD ""
        match mapLookup user_addr app.clients with
        | some _ =>
            { result := .ok true, app := app, conn := conn, roomEvents := [],
              mailboxEvents := [(user_addr, ServerMessage.Pong)] }
        | none => StepOut.noop (.ok true) app conn

/-- Reaction of the `handle_connection` loop to a `handle_client_message`
outcome: `Ok(false)` breaks the loop, `Ok(true)` continues, and an `Err` is
reported back as an `Error` message with the loop continuing (transport write
failures, which also break the loop, are out of scope). -/
def connection_continues (o : StepOut) : Bool :=
  match o.result with
  | .ok b => b
  | .error _ => true

/-- src/websocket.rs `handle_connection` cleanup (lines 124-128): when a
session was attached, call `remove_client`; nothing else happens. Components:
the state afterwards, the rooms for which the leave mutation ran, and the room
broadcasts performed during cleanup (the source performs none). -/
def connection_cleanup (conn : ConnState) (s : AppState) :
    AppState × List String × List (String × ServerMessage) :=
  match conn.user_address with
  | some addr =>
      let r := remove_client addr s
      (r.1, r.2, [])
  | none => (s, [], [])

/-- Decoded fields of a Uniswap V3 `Swap` log (src/blockchain.rs `abigen`
bindings): the two amounts are signed 256-bit integers. -/
structure SwapEvent where
  sender : String
  recipient : String
  amount_0 : Int
  amount_1 : Int
  sqrt_price_x96 : Nat
  liquidity : Nat
  tick : Int
  deriving DecidableEq, Repr

/-- Pool token-pair label (src/blockchain.rs `PoolInfo`). -/
structure PoolInfo where
  token0 : String
  token1 : String
  deriving DecidableEq, Repr

/-- src/blockchain.rs `get_pool_info`: static lookup over the debug-formatted
(lowercase) pool address, defaulting to Unknown/Unknown. -/
def get_pool_info (pool_address : String) : PoolInfo :=
  if pool_address = "0x88e6a0c2ddd26feeb64f039a2c41296fcb3f5640" then
    { token0 := "USDC", token1 := "WETH" }
  else if pool_address = "0x8ad599c3a0ff1de082011efddc58f1908eb6e6d8" then
    { token0 := "USDC", token1 := "WETH" }
  else if pool_address = "0xcbcdf9626bc03e24f779434178a73a0b4bad62ed" then
    { token0 := "WBTC", token1 := "WETH" }
  else { token0 := "Unknown", token1 := "Unknown" }

/-- The materiality threshold of src/blockchain.rs `handle_swap_event`:
`U256::from(10).pow(18)`, one 18-decimal unit. -/
def materiality_threshold : Nat := 10 ^ 18

/-- src/blockchain.rs `handle_swap_event`: take the magnitude of each signed
delta (`abs().as_u128()`, the identity for magnitudes below 2^128), discard
the event when both are below the threshold, otherwise build the ChainEvent
envelope (random id and timestamp elided) for a global broadcast. -/
def handle_swap_event (ev : SwapEvent) (pool_address tx_hash : String)
    (block_number : Nat) : Option ServerMessage :=
  let amount0_abs := ev.amount_0.natAbs
  let amount1_abs := ev.amount_1.natAbs
  if amount0_abs < materiality_threshold ∧ amount1_abs < materiality_threshold then none
  else
    let pool_info := get_pool_info pool_address
    let details : UniswapV3SwapDetails :=
      { sender := ev.sender, recipient := ev.recipient,
        amount0 := toString ev.amount_0, amount1 := toString ev.amount_1,
        sqrt_price_x96 := toString ev.sqrt_price_x96,
        liquidity := toString ev.liquidity, tick := ev.tick,
        pool_address := pool_address,
        token0 := pool_info.token0, token1 := pool_info.token1 }
    some (ServerMessage.ChainEvent
      { event_type := "UniswapV3Swap", transaction_hash := tx_hash,
        block_number := block_number, details := details })

/-- The `publishGlobal` calls made for one decoded swap log (zero or one). -/
def swap_broadcasts (ev : SwapEvent) (pool_address tx_hash : String)
    (block_number : Nat) : List ServerMessage :=
  (handle_swap_event ev pool_address tx_hash block_number).toList

/-- One registry mutation, for interleaving sequences of the three operations
named by the consistency invariant. -/
inductive RegOp where
  | joinR (addr room : String)
  | leaveR (addr room : String)
  | removeS (addr : String)
  deriving DecidableEq, Repr

/-- Apply one registry operation. -/
def applyOp (op : RegOp) (s : AppState) : AppState :=
  match op with
  | .joinR a r => (join_room a r s).1
  | .leaveR a r => leave_room a r s
  | .removeS a => (remove_client a s).1

/-- Apply a sequence of registry operations. -/
def applyOps (ops : List RegOp) (s : AppState) : AppState :=
  ops.foldl (fun st op => applyOp op st) s

/-- Whether every join in the run targets an address that has a session at the
moment the join executes. -/
def runGuarded : List RegOp → AppState → Bool
  | [], _ => true
  | op :: ops, s =>
      (match op with
       | .joinR a _ => (mapLookup a s.clients).isSome
       | _ => true) && runGuarded ops (applyOp op s)

/-- Session-to-room direction of the registry invariant: every room in a
session's joined-room set has that address in its member set. -/
def Dir1 (s : AppState) : Prop :=
  ∀ a c, mapLookup a s.clients = some c → ∀ r ∈ c.current_rooms,
    ∃ room, mapLookup r s.rooms = some room ∧ a ∈ room.users

/-- Room-to-session direction of the registry invariant: every member of a
room has a session whose joined-room set names that room. -/
def Dir2 (s : AppState) : Prop :=
  ∀ r room, mapLookup r s.rooms = some room → ∀ a ∈ room.users,
    ∃ c, mapLookup a s.clients = some c ∧ r ∈ c.current_rooms

/-- Mutual consistency of the two registry maps. -/
def Consistent (s : AppState) : Prop := Dir1 s ∧ Dir2 s

/-- Room-to-session direction weakened at one address: members are backed by a
session except possibly `addr` in the rooms still `pending` departure. -/
def Dir2Except (addr : String) (pending : List String) (s : AppState) : Prop :=
  ∀ r room, mapLookup r s.rooms = some room → ∀ a ∈ room.users,
    (a = addr ∧ r ∈ pending) ∨
    ∃ c, mapLookup a s.clients = some c ∧ r ∈ c.current_rooms

/-- Whether a command is one of the two authenticate commands. -/
def isAuthCmd : ClientMessage → Bool
  | .Authenticate _ _ => true
  | .SimpleAuth _ _ _ _ => true
  | _ => false

/-- Whether a published event is a user-left broadcast into the given room. -/
def isUserLeftIn (room : String) (e : String × ServerMessage) : Bool :=
  match e.2 with
  | ServerMessage.UserLeft _ r _ => (e.1 == room) && (r == room)
  | _ => false

/-- Concrete SIWE oracle for witnesses: parses any statement into a message
whose nonce and address are the statement itself, accepts all signatures. -/
def exSiweOracle : SiweOracle :=
  { parse := fun s => some { nonce := s, address := s },
    checksum := fun s => s,
    hexOk := fun _ => true,
    siweVerify := fun _ _ => true }

/-- Concrete SIWE oracle whose parser rejects every statement. -/
def exFailOracle : SiweOracle :=
  { parse := fun _ => none,
    checksum := fun s => s,
    hexOk := fun _ => true,
    siweVerify := fun _ _ => false }

/-- Concrete SIWE oracle that parses but rejects every signature. -/
def exBadSigOracle : SiweOracle :=
  { parse := fun s => some { nonce := s, address := s },
    checksum := fun s => s,
    hexOk := fun _ => true,
    siweVerify := fun _ _ => false }

/-- Concrete simple-scheme oracle for witnesses: always recovers the fixed
address `0xRecovered`. -/
def exSimpleOracle : SimpleOracle :=
  { parseSig := fun s => some s,
    recover := fun _ _ => some "0xRecovered",
    parseAddr := fun s => some s,
    checksum := fun s => s }

/-- Oracle bundle for witnesses. -/
def exOracles : Oracles := { siwe := exSiweOracle, simple := exSimpleOracle }

/-- A session that has joined rooms A and B. -/
def exClientAB : Client :=
  { id := "c1", user_address := "0xA", ens_name := none, current_rooms := ["A", "B"] }

/-- A registry state in which `0xA` is a member of rooms A and B. -/
def exStateAB : AppState :=
  { clients := [("0xA", exClientAB)],
    rooms := [("A", { name := "A", users := ["0xA"], message_history := [], max_history := 100 }),
              ("B", { name := "B", users := ["0xA"], message_history := [], max_history := 100 }),
              ("general", newRoom "general")],
    nonces := [] }

/-- The connection state of the `0xA` session. -/
def exConnA : ConnState :=
  { user_address := some "0xA", authenticated := true, has_client_receiver := true }

/-- A session that has joined only the default room. -/
def exClientG : Client :=
  { id := "c2", user_address := "0xB", ens_name := none, current_rooms := ["general"] }

/-- A registry state in which `0xB` is a member of the default room. -/
def exStateG : AppState :=
  { clients := [("0xB", exClientG)],
    rooms := [("general", { name := "general", users := ["0xB"], message_history := [],
                            max_history := 100 })],
    nonces := [] }

/-- The connection state of the `0xB` session. -/
def exConnB : ConnState :=
  { user_address := some "0xB", authenticated := true, has_client_receiver := true }

/-- A state whose nonce store holds exactly the token n2. -/
def exAppNonce : AppState :=
  { clients := [], rooms := [("general", newRoom "general")], nonces := ["n2"] }

/-- 150 distinct text messages, for the history-eviction witness. -/
def exMsgs150 : List ServerMessage :=
  (List.range 150).map (fun i => ServerMessage.NewText "u" (toString i) "general")

/-- A swap whose delta magnitudes are both below the threshold. -/
def exSwapSmall : SwapEvent :=
  { sender := "s", recipient := "r", amount_0 := 5, amount_1 := -7,
    sqrt_price_x96 := 0, liquidity := 0, tick := 0 }

/-- A swap whose first delta magnitude is exactly the threshold. -/
def exSwapLarge : SwapEvent :=
  { sender := "s", recipient := "r", amount_0 := -(10 ^ 18 : Int), amount_1 := 0,
    sqrt_price_x96 := 0, liquidity := 0, tick := 0 }

/-- A 1001-character text, over the send-text length bound. -/
def exLongText : String := String.mk (List.replicate 1001 'a')

/-- A verified identity fixture. -/
def exUA : UserAuth :=
  { address := "0xA", ens_name := none, token_holdings := [], nft_holdings := [] }

theorem mapLookup_update_self {A : Type} (k : String) (f : A → A) (m : List (String × A)) :
    mapLookup k (mapUpdate k f m) = (mapLookup k m).map f := by
  induction m with
  | nil => rfl
  | cons p m ih =>
    by_cases h : p.1 = k
    · simp [mapUpdate, mapLookup, h]
    · simp [mapUpdate, mapLookup, h, ih]

theorem mapLookup_update_ne {A : Type} (k k' : String) (h : k' ≠ k) (f : A → A)
    (m : List (String × A)) : mapLookup k' (mapUpdate k f m) = mapLookup k' m := by
  induction m with
  | nil => rfl
  | cons p m ih =>
    simp only [mapUpdate]
    by_cases hp : p.1 = k
    · have hp' : p.1 ≠ k' := by rw [hp]; exact fun hh => h hh.symm
      rw [if_pos hp]
      simp only [mapLookup]
      rw [if_neg hp', if_neg hp']
      exact ih
    · rw [if_neg hp]
      by_cases hq : p.1 = k'
      · simp only [mapLookup]
        rw [if_pos hq, if_pos hq]
      · simp only [mapLookup]
        rw [if_neg hq, if_neg hq]
        exact ih

theorem mapLookup_erase_self {A : Type} (k : String) (m : List (String × A)) :
    mapLookup k (mapErase k m) = none := by
  induction m with
  | nil => rfl
  | cons p m ih =>
    by_cases h : p.1 = k
    · simp [mapErase, mapLookup, h, List.filter] at ih ⊢
      exact ih
    · simp only [mapErase, List.filter] at ih ⊢
      rw [show ((p.1 == k) : Bool) = false from by simp [h]]
      simp [mapLookup, h]
      exact ih

theorem mapLookup_erase_ne {A : Type} (k k' : String) (h : k' ≠ k)
    (m : List (String × A)) : mapLookup k' (mapErase k m) = mapLookup k' m := by
  induction m with
  | nil => rfl
  | cons p m ih =>
    by_cases hp : p.1 = k
    · have hp' : p.1 ≠ k' := by rw [hp]; exact fun hh => h hh.symm
      simp only [mapErase, List.filter] at ih ⊢
      rw [show ((p.1 == k) : Bool) = true from by simp [hp]]
      simp [mapLookup, hp', ih]
    · simp only [mapErase, List.filter] at ih ⊢
      rw [show ((p.1 == k) : Bool) = false from by simp [hp]]
      by_cases hq : p.1 = k'
      · simp [mapLookup, hq]
      · simp [mapLookup, hq, ih]

theorem mapLookup_insert_self {A : Type} (k : String) (v : A) (m : List (String × A)) :
    mapLookup k (mapInsert k v m) = some v := by
  simp [mapInsert, mapLookup]

theorem mapLookup_insert_ne {A : Type} (k k' : String) (h : k' ≠ k) (v : A)
    (m : List (String × A)) : mapLookup k' (mapInsert k v m) = mapLookup k' m := by
  have hk : k ≠ k' := fun hh => h hh.symm
  simp [mapInsert, mapLookup, hk, mapLookup_erase_ne k k' h m]

theorem mem_setInsert (x y : String) (s : List String) :
    y ∈ setInsert x s ↔ y = x ∨ y ∈ s := by
  unfold setInsert
  split
  · rename_i hc
    have hx : x ∈ s := by simpa using hc
    constructor
    · exact Or.inr
    · rintro (rfl | hy)
      · exact hx
      · exact hy
  · simp [List.mem_cons]

theorem mem_setRemove (x y : String) (s : List String) :
    y ∈ setRemove x s ↔ y ∈ s ∧ y ≠ x := by
  simp [setRemove, List.mem_filter]

theorem join_room_rooms_eq (addr room : String) (s : AppState) :
    (join_room addr room s).1.rooms
      = mapUpdate room (fun r => { r with users := setInsert addr r.users })
          (if (mapLookup room s.rooms).isSome then s.rooms
           else mapInsert room (newRoom room) s.rooms) := by
  unfold join_room
  cases mapLookup addr s.clients <;> rfl

theorem join_room_clients_some (addr room : String) (s : AppState) (c₀ : Client)
    (hcl : mapLookup addr s.clients = some c₀) :
    (join_room addr room s).1.clients
      = mapUpdate addr (fun c => { c with current_rooms := setInsert room c.current_rooms })
          s.clients := by
  unfold join_room
  rw [hcl]

theorem join_room_clients_none (addr room : String) (s : AppState)
    (hcl : mapLookup addr s.clients = none) :
    (join_room addr room s).1.clients = s.clients := by
  unfold join_room
  rw [hcl]

theorem join_rooms_lookup_ne (addr room r : String) (hne : r ≠ room) (s : AppState) :
    mapLookup r (join_room addr room s).1.rooms = mapLookup r s.rooms := by
  rw [join_room_rooms_eq, mapLookup_update_ne room r hne]
  split
  · rfl
  · exact mapLookup_insert_ne room r hne _ s.rooms

theorem join_rooms_lookup_self (addr room : String) (s : AppState) :
    ∃ rm, mapLookup room (join_room addr room s).1.rooms = some rm ∧
      ∀ a, a ∈ rm.users ↔
        (a = addr ∨ ∃ rm₀, mapLookup room s.rooms = some rm₀ ∧ a ∈ rm₀.users) := by
  rw [join_room_rooms_eq]
  cases hro : mapLookup room s.rooms with
  | some rm₀ =>
    rw [show (if (some rm₀).isSome = true then s.rooms
          else mapInsert room (newRoom room) s.rooms) = s.rooms from rfl,
        mapLookup_update_self, hro]
    refine ⟨_, rfl, ?_⟩
    intro a
    simp only [mem_setInsert]
    constructor
    · rintro (rfl | hm)
      · exact Or.inl rfl
      · exact Or.inr ⟨rm₀, rfl, hm⟩
    · rintro (rfl | ⟨rm₁, hrm₁, hm⟩)
      · exact Or.inl rfl
      · cases hrm₁
        exact Or.inr hm
  | none =>
    rw [show (if (none : Option Room).isSome = true then s.rooms
          else mapInsert room (newRoom room) s.rooms)
          = mapInsert room (newRoom room) s.rooms from rfl,
        mapLookup_update_self, mapLookup_insert_self]
    refine ⟨_, rfl, ?_⟩
    intro a
    simp only [newRoom, mem_setInsert, List.not_mem_nil, or_false, hro]
    constructor
    · exact Or.inl
    · rintro (rfl | ⟨rm₁, hrm₁, _⟩)
      · rfl
      · cases hrm₁

theorem join_preserves_roomMem (addr room a r : String) (s : AppState)
    (hold : ∃ rm₀, mapLookup r s.rooms = some rm₀ ∧ a ∈ rm₀.users) :
    ∃ rm, mapLookup r (join_room addr room s).1.rooms = some rm ∧ a ∈ rm.users := by
  by_cases hr : r = room
  · subst hr
    obtain ⟨rm, hrm, hiff⟩ := join_rooms_lookup_self addr r s
    exact ⟨rm, hrm, (hiff a).mpr (Or.inr hold)⟩
  · obtain ⟨rm₀, h₀, hm⟩ := hold
    exact ⟨rm₀, by rw [join_rooms_lookup_ne addr room r hr]; exact h₀, hm⟩

theorem join_clients_lookup_ne (addr room a : String) (hne : a ≠ addr) (s : AppState) :
    mapLookup a (join_room addr room s).1.clients = mapLookup a s.clients := by
  cases hcl : mapLookup addr s.clients with
  | some c₀ =>
    rw [join_room_clients_some addr room s c₀ hcl, mapLookup_update_ne addr a hne]
  | none => rw [join_room_clients_none addr room s hcl]

theorem join_clients_lookup_self (addr room : String) (s : AppState) (c₀ : Client)
    (hcl : mapLookup addr s.clients = some c₀) :
    mapLookup addr (join_room addr room s).1.clients
      = some { c₀ with current_rooms := setInsert room c₀.current_rooms } := by
  rw [join_room_clients_some addr room s c₀ hcl, mapLookup_update_self, hcl]
  rfl

theorem Dir1_join (s : AppState) (h1 : Dir1 s) (addr room : String) :
    Dir1 (join_room addr room s).1 := by
  intro a c hac r hr
  by_cases ha : a = addr
  · subst ha
    cases hcl : mapLookup a s.clients with
    | none =>
      rw [join_room_clients_none a room s hcl, hcl] at hac
      cases hac
    | some c₀ =>
      rw [join_clients_lookup_self a room s c₀ hcl] at hac
      cases hac
      rcases (mem_setInsert room r c₀.current_rooms).mp hr with rfl | hr₀
      · obtain ⟨rm, hrm, hiff⟩ := join_rooms_lookup_self a r s
        exact ⟨rm, hrm, (hiff a).mpr (Or.inl rfl)⟩
      · exact join_preserves_roomMem a room a r s (h1 a c₀ hcl r hr₀)
  · rw [join_clients_lookup_ne addr room a ha] at hac
    exact join_preserves_roomMem addr room a r s (h1 a c hac r hr)

theorem Dir2_join (s : AppState) (h2 : Dir2 s) (addr room : String) (c₀ : Client)
    (hcl : mapLookup addr s.clients = some c₀) :
    Dir2 (join_room addr room s).1 := by
  intro r rm hrm a ha
  by_cases hr : r = room
  · subst hr
    obtain ⟨rm', hrm', hiff⟩ := join_rooms_lookup_self addr r s
    rw [hrm'] at hrm
    cases hrm
    rcases (hiff a).mp ha with rfl | ⟨rm₀, hrm₀, hm⟩
    · refine ⟨_, join_clients_lookup_self a r s c₀ hcl, ?_⟩
      exact (mem_setInsert r r c₀.current_rooms).mpr (Or.inl rfl)
    · obtain ⟨ca, hca, hcr⟩ := h2 r rm₀ hrm₀ a hm
      by_cases haa : a = addr
      · subst haa
        refine ⟨_, join_clients_lookup_self a r s c₀ hcl, ?_⟩
        exact (mem_setInsert r r c₀.current_rooms).mpr (Or.inl rfl)
      · exact ⟨ca, by rw [join_clients_lookup_ne addr r a haa]; exact hca, hcr⟩
  · rw [join_rooms_lookup_ne addr room r hr] at hrm
    obtain ⟨ca, hca, hcr⟩ := h2 r rm hrm a ha
    by_cases haa : a = addr
    · subst haa
      rw [hcl] at hca
      cases hca
      refine ⟨_, join_clients_lookup_self a room s c₀ hcl, ?_⟩
      exact (mem_setInsert room r c₀.current_rooms).mpr (Or.inr hcr)
    · exact ⟨ca, by rw [join_clients_lookup_ne addr room a haa]; exact hca, hcr⟩

theorem leave_rooms_lookup_self (addr room : String) (s : AppState) :
    mapLookup room (leave_room addr room s).rooms
      = (mapLookup room s.rooms).map (fun rm => { rm with users := setRemove addr rm.users }) := by
  unfold leave_room
  exact mapLookup_update_self room _ s.rooms

theorem leave_rooms_lookup_ne (addr room r : String) (hne : r ≠ room) (s : AppState) :
    mapLookup r (leave_room addr room s).rooms = mapLookup r s.rooms := by
  unfold leave_room
  exact mapLookup_update_ne room r hne _ s.rooms

theorem leave_clients_lookup_self (addr room : String) (s : AppState) :
    mapLookup addr (leave_room addr room s).clients
      = (mapLookup addr s.clients).map
          (fun c => { c with current_rooms := setRemove room c.current_rooms }) := by
  unfold leave_room
  exact mapLookup_update_self addr _ s.clients

theorem leave_clients_lookup_ne (addr room a : String) (hne : a ≠ addr) (s : AppState) :
    mapLookup a (leave_room addr room s).clients = mapLookup a s.clients := by
  unfold leave_room
  exact mapLookup_update_ne addr a hne _ s.clients

theorem Dir1_leave (s : AppState) (h1 : Dir1 s) (addr room : String) :
    Dir1 (leave_room addr room s) := by
  intro a c hac r hr
  by_cases ha : a = addr
  · subst ha
    rw [leave_clients_lookup_self a room s] at hac
    rcases Option.map_eq_some'.mp hac with ⟨c₀, hc₀, rfl⟩
    obtain ⟨hr₀, hrne⟩ := (mem_setRemove room r c₀.current_rooms).mp hr
    obtain ⟨rm₀, hrm₀, hm⟩ := h1 a c₀ hc₀ r hr₀
    exact ⟨rm₀, by rw [leave_rooms_lookup_ne a room r hrne]; exact hrm₀, hm⟩
  · rw [leave_clients_lookup_ne addr room a ha] at hac
    obtain ⟨rm₀, hrm₀, hm⟩ := h1 a c hac r hr
    by_cases hrr : r = room
    · subst hrr
      refine ⟨_, by rw [leave_rooms_lookup_self addr r s, hrm₀]; rfl, ?_⟩
      exact (mem_setRemove addr a rm₀.users).mpr ⟨hm, ha⟩
    · exact ⟨rm₀, by rw [leave_rooms_lookup_ne addr room r hrr]; exact hrm₀, hm⟩

theorem Dir2_leave (s : AppState) (h2 : Dir2 s) (addr room : String) :
    Dir2 (leave_room addr room s) := by
  intro r rm hrm a ha
  by_cases hrr : r = room
  · subst hrr
    rw [leave_rooms_lookup_self addr r s] at hrm
    rcases Option.map_eq_some'.mp hrm with ⟨rm₀, hrm₀, rfl⟩
    obtain ⟨ham, hane⟩ := (mem_setRemove addr a rm₀.users).mp ha
    obtain ⟨ca, hca, hcr⟩ := h2 r rm₀ hrm₀ a ham
    exact ⟨ca, by rw [leave_clients_lookup_ne addr r a hane]; exact hca, hcr⟩
  · rw [leave_rooms_lookup_ne addr room r hrr] at hrm
    obtain ⟨ca, hca, hcr⟩ := h2 r rm hrm a ha
    by_cases haa : a = addr
    · subst haa
      refine ⟨_, by rw [leave_clients_lookup_self a room s, hca]; rfl, ?_⟩
      exact (mem_setRemove room r ca.current_rooms).mpr ⟨hcr, hrr⟩
    · exact ⟨ca, by rw [leave_clients_lookup_ne addr room a haa]; exact hca, hcr⟩

theorem Dir1_eraseClient (s : AppState) (h1 : Dir1 s) (addr : String) :
    Dir1 { s with clients := mapErase addr s.clients } := by
  intro a c hac r hr
  by_cases ha : a = addr
  · subst ha
    rw [show ({ s with clients := mapErase a s.clients } : AppState).clients
          = mapErase a s.clients from rfl, mapLookup_erase_self] at hac
    cases hac
  · rw [show ({ s with clients := mapErase addr s.clients } : AppState).clients
          = mapErase addr s.clients from rfl, mapLookup_erase_ne addr a ha] at hac
    exact h1 a c hac r hr

theorem remove_fold_inv (addr : String) :
    ∀ (rs : List String) (s : AppState),
      mapLookup addr s.clients = none → Dir1 s → Dir2Except addr rs s →
      Consistent (rs.foldl (fun acc r => leave_room addr r acc) s) := by
  intro rs
  induction rs with
  | nil =>
    intro s _ h1 h2
    refine ⟨h1, ?_⟩
    intro r rm hrm a ha
    rcases h2 r rm hrm a ha with ⟨_, hmem⟩ | hex
    · cases hmem
    · exact hex
  | cons r₀ rest ih =>
    intro s hnone h1 h2
    simp only [List.foldl]
    apply ih
    · rw [leave_clients_lookup_self addr r₀ s, hnone]
      rfl
    · exact Dir1_leave s h1 addr r₀
    · intro r rm hrm a ha
      by_cases hrr : r = r₀
      · subst hrr
        rw [leave_rooms_lookup_self addr r s] at hrm
        rcases Option.map_eq_some'.mp hrm with ⟨rm₀, hrm₀, rfl⟩
        obtain ⟨ham, hane⟩ := (mem_setRemove addr a rm₀.users).mp ha
        rcases h2 r rm₀ hrm₀ a ham with ⟨heq, _⟩ | ⟨ca, hca, hcr⟩
        · exact absurd heq hane
        · right
          exact ⟨ca, by rw [leave_clients_lookup_ne addr r a hane]; exact hca, hcr⟩
      · rw [leave_rooms_lookup_ne addr r₀ r hrr] at hrm
        rcases h2 r rm hrm a ha with ⟨heq, hmem⟩ | ⟨ca, hca, hcr⟩
        · left
          refine ⟨heq, ?_⟩
          rcases List.mem_cons.mp hmem with rfl | hm
          · exact absurd rfl hrr
          · exact hm
        · right
          by_cases haa : a = addr
          · subst haa
            rw [hnone] at hca
            cases hca
          · exact ⟨ca, by rw [leave_clients_lookup_ne addr r₀ a haa]; exact hca, hcr⟩

theorem Consistent_remove (s : AppState) (h : Consistent s) (addr : String) :
    Consistent (remove_client addr s).1 := by
  cases hcl : mapLookup addr s.clients with
  | none =>
    simp only [remove_client, hcl]
    exact h
  | some client =>
    simp only [remove_client, hcl]
    apply remove_fold_inv addr client.current_rooms
    · exact mapLookup_erase_self addr s.clients
    · exact Dir1_eraseClient s h.1 addr
    · intro r rm hrm a ha
      obtain ⟨ca, hca, hcr⟩ := h.2 r rm hrm a ha
      by_cases haa : a = addr
      · subst haa
        rw [hcl] at hca
        cases hca
        exact Or.inl ⟨rfl, hcr⟩
      · right
        refine ⟨ca, ?_, hcr⟩
        show mapLookup a (mapErase addr s.clients) = some ca
        rw [mapLookup_erase_ne addr a haa]
        exact hca

theorem Consistent_leave (s : AppState) (h : Consistent s) (addr room : String) :
    Consistent (leave_room addr room s) :=
  ⟨Dir1_leave s h.1 addr room, Dir2_leave s h.2 addr room⟩

theorem Consistent_join (s : AppState) (h : Consistent s) (addr room : String)
    (hcl : (mapLookup addr s.clients).isSome = true) :
    Consistent (join_room addr room s).1 := by
  cases hc : mapLookup addr s.clients with
  | none => rw [hc] at hcl; cases hcl
  | some c₀ => exact ⟨Dir1_join s h.1 addr room, Dir2_join s h.2 addr room c₀ hc⟩

theorem Consistent_guarded_run :
    ∀ (ops : List RegOp) (s : AppState), Consistent s → runGuarded ops s = true →
      Consistent (applyOps ops s) := by
  intro ops
  induction ops with
  | nil => intro s h _; exact h
  | cons op ops ih =>
    intro s h hg
    have hstep : applyOps (op :: ops) s = applyOps ops (applyOp op s) := rfl
    rw [hstep]
    cases op with
    | joinR a r =>
      simp only [runGuarded, Bool.and_eq_true] at hg
      exact ih _ (Consistent_join s h a r hg.1) hg.2
    | leaveR a r =>
      simp only [runGuarded, Bool.and_eq_true, true_and] at hg
      exact ih _ (Consistent_leave s h a r) hg
    | removeS a =>
      simp only [runGuarded, Bool.and_eq_true, true_and] at hg
      exact ih _ (Consistent_remove s h a) hg

theorem Dir1_remove (s : AppState) (h1 : Dir1 s) (addr : String) :
    Dir1 (remove_client addr s).1 := by
  cases hcl : mapLookup addr s.clients with
  | none =>
    simp only [remove_client, hcl]
    exact h1
  | some client =>
    simp only [remove_client, hcl]
    have base : Dir1 { s with clients := mapErase addr s.clients } :=
      Dir1_eraseClient s h1 addr
    generalize { s with clients := mapErase addr s.clients } = s₁ at base ⊢
    induction client.current_rooms generalizing s₁ with
    | nil => exact base
    | cons r rs ihr =>
      simp only [List.foldl]
      exact ihr (leave_room addr r s₁) (Dir1_leave s₁ base addr r)

theorem Dir1_any_run :
    ∀ (ops : List RegOp) (s : AppState), Dir1 s → Dir1 (applyOps ops s) := by
  intro ops
  induction ops with
  | nil => intro s h; exact h
  | cons op ops ih =>
    intro s h
    apply ih
    cases op with
    | joinR a r => exact Dir1_join s h a r
    | leaveR a r => exact Dir1_leave s h a r
    | removeS a => exact Dir1_remove s h a

theorem push_history_length_le (h : List ServerMessage) (m : ServerMessage)
    (hle : h.length ≤ 100) : (push_history 100 h m).length ≤ 100 := by
  by_cases hc : (h ++ [m]).length > 100
  · have hp : push_history 100 h m = (h ++ [m]).drop 1 := by
      unfold push_history
      rw [if_pos hc]
    rw [hp]
    simp only [List.length_drop, List.length_append, List.length_cons, List.length_nil]
    omega
  · have hp : push_history 100 h m = h ++ [m] := by
      unfold push_history
      rw [if_neg hc]
    rw [hp]
    simp only [List.length_append, List.length_cons, List.length_nil] at hc ⊢
    omega

theorem foldl_push_history (msgs : List ServerMessage) :
    ∀ h : List ServerMessage, h.length ≤ 100 →
      msgs.foldl (push_history 100) h
        = (h ++ msgs).drop (h.length + msgs.length - 100) := by
  induction msgs with
  | nil =>
    intro h hle
    rw [List.foldl_nil, List.append_nil, List.length_nil,
        Nat.add_zero, Nat.sub_eq_zero_of_le hle, List.drop_zero]
  | cons m rest ih =>
    intro h hle
    rw [List.foldl_cons, ih (push_history 100 h m) (push_history_length_le h m hle)]
    have hassoc : (h ++ [m]) ++ rest = h ++ m :: rest := by simp
    have hlen1 : (h ++ [m]).length = h.length + 1 := by simp
    by_cases hc : (h ++ [m]).length > 100
    · have hp : push_history 100 h m = (h ++ [m]).drop 1 := by
        unfold push_history
        rw [if_pos hc]
      have hc' : h.length = 100 := by omega
      rw [hp]
      have hd : ((h ++ [m]) ++ rest).drop 1 = (h ++ [m]).drop 1 ++ rest := by
        rw [List.drop_append_eq_append_drop]
        congr 1
        rw [show 1 - (h ++ [m]).length = 0 from by rw [hlen1]; omega, List.drop_zero]
      rw [← hd, List.drop_drop, hassoc]
      congr 1
      simp only [List.length_drop, hlen1, hc', List.length_cons]
      omega
    · have hp : push_history 100 h m = h ++ [m] := by
        unfold push_history
        rw [if_neg hc]
      rw [hp, hassoc]
      congr 1
      simp only [hlen1, List.length_cons]
      omega

theorem broadcast_history (room_name : String) (m : ServerMessage) (s : AppState) :
    mapLookup room_name (broadcast_to_room room_name m s).1.rooms
      = (mapLookup room_name s.rooms).map
          (fun room => { room with
            message_history := push_history room.max_history room.message_history m }) := by
  cases hro : mapLookup room_name s.rooms with
  | none => simp only [broadcast_to_room, hro, Option.map_none']
  | some room =>
    simp only [broadcast_to_room, hro, Option.map_some']
    rw [mapLookup_update_self, hro]
    rfl

theorem broadcast_other_room (room_name r : String) (hne : r ≠ room_name)
    (m : ServerMessage) (s : AppState) :
    mapLookup r (broadcast_to_room room_name m s).1.rooms = mapLookup r s.rooms := by
  cases hro : mapLookup room_name s.rooms with
  | none => simp only [broadcast_to_room, hro]
  | some room =>
    simp only [broadcast_to_room, hro]
    exact mapLookup_update_ne room_name r hne _ s.rooms

theorem publish_sequence_history (room_name : String) (msgs : List ServerMessage) :
    ∀ (s : AppState) (room₀ : Room), mapLookup room_name s.rooms = some room₀ →
      mapLookup room_name (publish_sequence room_name msgs s).rooms
        = some { room₀ with
            message_history :=
              msgs.foldl (push_history room₀.max_history) room₀.message_history } := by
  induction msgs with
  | nil => intro s room₀ h; exact h
  | cons m rest ih =>
    intro s room₀ h
    have hstep : publish_sequence room_name (m :: rest) s
        = publish_sequence room_name rest (broadcast_to_room room_name m s).1 := rfl
    rw [hstep]
    have hmid : mapLookup room_name (broadcast_to_room room_name m s).1.rooms
        = some { room₀ with
            message_history := push_history room₀.max_history room₀.message_history m } := by
      rw [broadcast_history, h]
      rfl
    rw [ih _ _ hmid]
    rfl

theorem leave_room_absent (s : AppState) (addr r : String) :
    ∀ rm, mapLookup r (leave_room addr r s).rooms = some rm → addr ∉ rm.users := by
  intro rm hrm
  rw [leave_rooms_lookup_self addr r s] at hrm
  rcases Option.map_eq_some'.mp hrm with ⟨rm₀, _, rfl⟩
  intro hmem
  exact ((mem_setRemove addr addr rm₀.users).mp hmem).2 rfl

theorem leave_room_preserves_absent (s : AppState) (addr r r' : String)
    (h : ∀ rm, mapLookup r s.rooms = some rm → addr ∉ rm.users) :
    ∀ rm, mapLookup r (leave_room addr r' s).rooms = some rm → addr ∉ rm.users := by
  by_cases hrr : r = r'
  · subst hrr
    exact leave_room_absent s addr r
  · intro rm hrm
    rw [leave_rooms_lookup_ne addr r' r hrr] at hrm
    exact h rm hrm

theorem fold_leave_absent (addr r : String) :
    ∀ (rs : List String) (s : AppState),
      (∀ rm, mapLookup r s.rooms = some rm → addr ∉ rm.users) →
      ∀ rm, mapLookup r (rs.foldl (fun acc x => leave_room addr x acc) s).rooms = some rm →
        addr ∉ rm.users := by
  intro rs
  induction rs with
  | nil => intro s h; exact h
  | cons x rest ih =>
    intro s h
    simp only [List.foldl]
    exact ih _ (leave_room_preserves_absent s addr r x h)

theorem fold_leave_mem_absent (addr : String) :
    ∀ (rs : List String) (s : AppState) (r : String), r ∈ rs →
      ∀ rm, mapLookup r (rs.foldl (fun acc x => leave_room addr x acc) s).rooms = some rm →
        addr ∉ rm.users := by
  intro rs
  induction rs with
  | nil => intro s r hr; cases hr
  | cons x rest ih =>
    intro s r hr
    simp only [List.foldl]
    rcases List.mem_cons.mp hr with rfl | hr'
    · exact fold_leave_absent addr r rest _ (leave_room_absent s addr r)
    · exact ih _ r hr'

theorem fold_leave_clients_none (addr : String) :
    ∀ (rs : List String) (s : AppState), mapLookup addr s.clients = none →
      mapLookup addr (rs.foldl (fun acc x => leave_room addr x acc) s).clients = none := by
  intro rs
  induction rs with
  | nil => intro s h; exact h
  | cons x rest ih =>
    intro s h
    simp only [List.foldl]
    apply ih
    rw [leave_clients_lookup_self addr x s, h]
    rfl

theorem length_le_utf8ByteSize (s : String) : s.length ≤ s.utf8ByteSize := by
  show s.data.length ≤ String.utf8ByteSize.go s.data
  induction s.data with
  | nil => exact Nat.le_refl 0
  | cons c cs ih =>
    show cs.length + 1 ≤ String.utf8ByteSize.go cs + c.utf8Size
    have := Char.utf8Size_pos c
    omega

theorem normalizeChars_cons (ck : String → String) (f : Nat) (c : Char) (rest : List Char) :
    normalizeChars ck (f + 1) (c :: rest)
      = if addrMatchAt (c :: rest)
        then (ck (String.mk ((c :: rest).take 42))).data
              ++ normalizeChars ck f ((c :: rest).drop 42)
        else c :: normalizeChars ck f rest := rfl

theorem normalizeChars_fuel (ck : String → String) :
    ∀ (f : Nat) (cs : List Char), cs.length ≤ f →
      normalizeChars ck f cs = normList ck cs := by
  intro f
  induction f using Nat.strong_induction_on with
  | _ f ih =>
    match f with
    | 0 =>
      intro cs hle
      have hnil : cs = [] := List.length_eq_zero.mp (Nat.le_zero.mp hle)
      subst hnil
      rfl
    | f + 1 =>
      intro cs hle
      match cs with
      | [] => rfl
      | c :: rest =>
        have hrest : rest.length ≤ f := by
          simp only [List.length_cons] at hle
          omega
        show normalizeChars ck (f + 1) (c :: rest)
          = normalizeChars ck (rest.length + 1) (c :: rest)
        rw [normalizeChars_cons, normalizeChars_cons]
        by_cases hm : addrMatchAt (c :: rest) = true
        · rw [if_pos hm, if_pos hm]
          congr 1
          have hdl : ((c :: rest).drop 42).length = rest.length + 1 - 42 := by
            simp [List.length_drop]
          rw [ih f (Nat.lt_succ_self f) _ (by rw [hdl]; omega),
              ih rest.length (by omega) _ (by rw [hdl]; omega)]
        · rw [if_neg hm, if_neg hm]
          congr 1
          rw [ih f (Nat.lt_succ_self f) rest hrest,
              ih rest.length (by omega) rest (Nat.le_refl _)]

theorem normList_match_head (ck : String → String) (h rest : List Char)
    (hlen : h.length = 40) (hhex : h.all isHexDigitChar = true) :
    normList ck ('0' :: 'x' :: (h ++ rest))
      = (ck (String.mk ('0' :: 'x' :: h))).data ++ normList ck rest := by
  have htake : (h ++ rest).take 40 = h := by
    rw [← hlen]
    exact List.take_left h rest
  have hmatch : addrMatchAt ('0' :: 'x' :: (h ++ rest)) = true := by
    simp only [addrMatchAt, htake, hlen, hhex, Bool.and_true]
    rfl
  have hlen' : ('0' :: 'x' :: (h ++ rest)).length = (41 + rest.length) + 1 := by
    simp only [List.length_cons, List.length_append, hlen]
    omega
  have htake42 : ('0' :: 'x' :: (h ++ rest)).take 42 = '0' :: 'x' :: h := by
    simp only [List.take_succ_cons, htake]
  have hdrop42 : ('0' :: 'x' :: (h ++ rest)).drop 42 = rest := by
    show (h ++ rest).drop 40 = rest
    rw [← hlen]
    exact List.drop_left h rest
  rw [normList, hlen', normalizeChars_cons, if_pos hmatch, htake42, hdrop42,
      normalizeChars_fuel ck (41 + rest.length) rest (by omega)]

theorem normList_nomatch_head (ck : String → String) (c : Char) (rest : List Char)
    (hm : addrMatchAt (c :: rest) = false) :
    normList ck (c :: rest) = c :: normList ck rest := by
  show normalizeChars ck (rest.length + 1) (c :: rest) = c :: normList ck rest
  rw [normalizeChars_cons, if_neg (by rw [hm]; exact Bool.false_ne_true)]
  rfl

theorem contains_filter_self (n : String) (l : List String) :
    (l.filter (fun x => !(x == n))).contains n = false := by
  cases hc : (l.filter (fun x => !(x == n))).contains n with
  | false => rfl
  | true =>
    exfalso
    have hmem : n ∈ l.filter (fun x => !(x == n)) := List.elem_iff.mp hc
    have := (List.mem_filter.mp hmem).2
    simp at this

theorem verify_siwe_store_after (ora : SiweOracle) (m sg : String) (store : List String)
    (msg : SiweMessage) (hp : (siweParsePhase ora m).1 = some msg)
    (hcon : store.contains msg.nonce = true) :
    (verify_siwe_message ora m sg store).2 = store.filter (fun x => !(x == msg.nonce)) := by
  simp only [verify_siwe_message, hp, hcon, if_true]
  cases ora.hexOk sg <;> cases ora.siweVerify msg sg <;> simp

theorem verify_siwe_absent_nonce (ora : SiweOracle) (m sg : String) (store : List String)
    (msg : SiweMessage) (hp : (siweParsePhase ora m).1 = some msg)
    (hcon : store.contains msg.nonce = false) :
    verify_siwe_message ora m sg store = (Except.error AppError.InvalidNonce, store) := by
  simp only [verify_siwe_message, hp, hcon]
  rfl

/-- Claim C1: a challenge nonce is single-use in the structured scheme. A
first verification attempt whose parsed statement carries a nonce present in
the store deletes it from the store, and a second attempt presenting the same
nonce fails with InvalidNonce; an attempt whose nonce is absent (never issued,
expired, or already consumed) fails with InvalidNonce. -/
theorem nonce_single_use (ora : SiweOracle) (store : List String)
    (m1 sg1 m2 sg2 : String) (msg1 : SiweMessage)
    (hp1 : (siweParsePhase ora m1).1 = some msg1) :
    (store.contains msg1.nonce = true →
       (verify_siwe_message ora m1 sg1 store).2.contains msg1.nonce = false
     ∧ ∀ msg2, (siweParsePhase ora m2).1 = some msg2 → msg2.nonce = msg1.nonce →
         (verify_siwe_message ora m2 sg2 (verify_siwe_message ora m1 sg1 store).2).1
           = Except.error AppError.InvalidNonce)
  ∧ (store.contains msg1.nonce = false →
       (verify_siwe_message ora m1 sg1 store).1 = Except.error AppError.InvalidNonce) := by
  constructor
  · intro hcon
    have hafter := verify_siwe_store_after ora m1 sg1 store msg1 hp1 hcon
    have hgone : (verify_siwe_message ora m1 sg1 store).2.contains msg1.nonce = false := by
      rw [hafter]
      exact contains_filter_self msg1.nonce store
    refine ⟨hgone, ?_⟩
    intro msg2 hp2 hn2
    have hgone2 : (verify_siwe_message ora m1 sg1 store).2.contains msg2.nonce = false := by
      rw [hn2]
      exact hgone
    rw [verify_siwe_absent_nonce ora m2 sg2 _ msg2 hp2 hgone2]
  · intro hcon
    rw [verify_siwe_absent_nonce ora m1 sg1 store msg1 hp1 hcon]

/-- Witness for C1 at a concrete oracle, store and messages. -/
theorem nonce_single_use_witness :
    (verify_siwe_message exSiweOracle "n1" "sig" ["n1"]).2.contains "n1" = false
  ∧ (verify_siwe_message exSiweOracle "n1" "sig2"
       (verify_siwe_message exSiweOracle "n1" "sig" ["n1"]).2).1
       = Except.error AppError.InvalidNonce
  ∧ (verify_siwe_message exSiweOracle "n1" "sig" []).1
       = Except.error AppError.InvalidNonce := by
  have h := nonce_single_use exSiweOracle ["n1"] "n1" "sig" "n1" "sig2"
    { nonce := "n1", address := "n1" } rfl
  have h1 := h.1 (by decide)
  have h2 := nonce_single_use exSiweOracle [] "n1" "sig" "n1" "sig2"
    { nonce := "n1", address := "n1" } rfl
  exact ⟨h1.1, h1.2 { nonce := "n1", address := "n1" } rfl rfl, h2.2 (by decide)⟩

/-- Claim C10: in both schemes the nonce is deleted before the signature is
checked, so a valid unconsumed nonce together with an invalid signature fails
with InvalidSignature yet consumes the nonce, and a retry with the same nonce
fails with InvalidNonce. -/
theorem nonce_consumed_before_signature (ora : SiweOracle) (orb : SimpleOracle)
    (uuid : String) :
    (∀ (store : List String) (m sg : String) (msg : SiweMessage),
       (siweParsePhase ora m).1 = some msg → store.contains msg.nonce = true →
       ora.hexOk sg = true → ora.siweVerify msg sg = false →
         (verify_siwe_message ora m sg store).1 = Except.error AppError.InvalidSignature
       ∧ (verify_siwe_message ora m sg store).2.contains msg.nonce = false
       ∧ (∀ m2 sg2 msg2, (siweParsePhase ora m2).1 = some msg2 → msg2.nonce = msg.nonce →
           (verify_siwe_message ora m2 sg2 (verify_siwe_message ora m sg store).2).1
             = Except.error AppError.InvalidNonce))
  ∧ (∀ (app : AppState) (conn : ConnState) (address m sg n sig rec claimed : String),
       app.nonces.contains n = true →
       orb.parseSig sg = some sig → orb.recover sig m = some rec →
       orb.parseAddr address = some claimed →
       strToLower (orb.checksum rec) ≠ strToLower (orb.checksum claimed) →
         (handle_simple_authentication orb uuid address m sg n app conn).result
           = Except.error AppError.InvalidSignature
       ∧ (handle_simple_authentication orb uuid address m sg n app conn).app.nonces.contains n
           = false
       ∧ (handle_simple_authentication orb uuid address m sg n
             (handle_simple_authentication orb uuid address m sg n app conn).app conn).result
           = Except.error AppError.InvalidNonce) := by
  constructor
  · intro store m sg msg hp hcon hhex hbad
    have hres : (verify_siwe_message ora m sg store).1
        = Except.error AppError.InvalidSignature := by
      simp only [verify_siwe_message, hp, hcon, if_true, hhex, hbad]
      rfl
    have hafter := verify_siwe_store_after ora m sg store msg hp hcon
    have hgone : (verify_siwe_message ora m sg store).2.contains msg.nonce = false := by
      rw [hafter]
      exact contains_filter_self msg.nonce store
    refine ⟨hres, hgone, ?_⟩
    intro m2 sg2 msg2 hp2 hn2
    have hgone2 : (verify_siwe_message ora m sg store).2.contains msg2.nonce = false := by
      rw [hn2]
      exact hgone
    rw [verify_siwe_absent_nonce ora m2 sg2 _ msg2 hp2 hgone2]
  · intro app conn address m sg n sig rec claimed hcon hsig hrec haddr hne
    have hout : handle_simple_authentication orb uuid address m sg n app conn
        = StepOut.noop (Except.error AppError.InvalidSignature)
            { app with nonces := app.nonces.filter (fun x => !(x == n)) } conn := by
      simp only [handle_simple_authentication, hcon, if_true, hsig, hrec, haddr]
      rw [if_pos hne]
    rw [hout]
    refine ⟨rfl, ?_, ?_⟩
    · exact contains_filter_self n app.nonces
    · have happ : (StepOut.noop (Except.error AppError.InvalidSignature)
          { app with nonces := app.nonces.filter (fun x => !(x == n)) } conn).app
          = { app with nonces := app.nonces.filter (fun x => !(x == n)) } := rfl
      rw [happ]
      have hcon2 : (({ app with nonces := app.nonces.filter (fun x => !(x == n)) }
          : AppState).nonces).contains n = false := contains_filter_self n app.nonces
      simp only [handle_simple_authentication, hcon2]
      rw [if_neg Bool.false_ne_true]
      rfl

/-- Witness for C10 at concrete oracles: the structured scheme with a bad
signature, and the simple scheme with a recovered address that does not match
the claimed one. -/
theorem nonce_consumed_before_signature_witness :
    (verify_siwe_message exBadSigOracle "n1" "sig" ["n1"]).1
        = Except.error AppError.InvalidSignature
  ∧ (verify_siwe_message exBadSigOracle "n1" "sig" ["n1"]).2.contains "n1" = false
  ∧ (handle_simple_authentication exSimpleOracle "u" "0xClaimed" "hello" "sig" "n2"
       exAppNonce initialConn).result = Except.error AppError.InvalidSignature
  ∧ (handle_simple_authentication exSimpleOracle "u" "0xClaimed" "hello" "sig" "n2"
       exAppNonce initialConn).app.nonces.contains "n2" = false := by
  have h := nonce_consumed_before_signature exBadSigOracle exSimpleOracle "u"
  have h1 := h.1 ["n1"] "n1" "sig" { nonce := "n1", address := "n1" } rfl (by decide) rfl rfl
  have h2 := h.2 exAppNonce initialConn "0xClaimed" "hello" "sig" "n2" "sig" "0xRecovered"
    "0xClaimed" (by decide) rfl rfl rfl (by decide)
  exact ⟨h1.1, h1.2.1, h2.1, h2.2.1⟩

/-- Claim C8: structured-scheme verification parses the statement at most
twice; a successful first parse is used as-is; on failure the statement is
normalized (every 40-hex-digit address substring rewritten to its checksummed
form, other characters copied) and parsed exactly once more; if the second
parse also fails, verification fails with InvalidSignature and touches
nothing. -/
theorem siwe_parse_two_attempts (ora : SiweOracle) (s : String) :
    ((siweParsePhase ora s).2.length ≤ 2)
  ∧ (∀ m, ora.parse s = some m → siweParsePhase ora s = (some m, [s]))
  ∧ (ora.parse s = none →
       (siweParsePhase ora s).2 = [s, normalize_siwe_message ora.checksum s]
     ∧ (∀ m, ora.parse (normalize_siwe_message ora.checksum s) = some m →
         (siweParsePhase ora s).1 = some m)
     ∧ (ora.parse (normalize_siwe_message ora.checksum s) = none →
         ∀ sg store, verify_siwe_message ora s sg store
           = (Except.error AppError.InvalidSignature, store)))
  ∧ (normalize_siwe_message ora.checksum s = String.mk (normList ora.checksum s.data))
  ∧ (∀ (h rest : List Char), h.length = 40 → h.all isHexDigitChar = true →
       normList ora.checksum ('0' :: 'x' :: (h ++ rest))
         = (ora.checksum (String.mk ('0' :: 'x' :: h))).data ++ normList ora.checksum rest)
  ∧ (∀ (c : Char) (rest : List Char), addrMatchAt (c :: rest) = false →
       normList ora.checksum (c :: rest) = c :: normList ora.checksum rest) := by
  refine ⟨?_, ?_, ?_, rfl, normList_match_head ora.checksum, normList_nomatch_head ora.checksum⟩
  · cases hp : ora.parse s with
    | some m => simp [siweParsePhase, hp]
    | none =>
      cases hp2 : ora.parse (normalize_siwe_message ora.checksum s) with
      | some m => simp [siweParsePhase, hp, hp2]
      | none => simp [siweParsePhase, hp, hp2]
  · intro m hp
    simp [siweParsePhase, hp]
  · intro hp
    cases hp2 : ora.parse (normalize_siwe_message ora.checksum s) with
    | some m =>
      refine ⟨by simp [siweParsePhase, hp, hp2], ?_, ?_⟩
      · intro m' hm'
        cases hm'
        simp [siweParsePhase, hp, hp2]
      · intro hcontra
        cases hcontra
    | none =>
      refine ⟨by simp [siweParsePhase, hp, hp2], ?_, ?_⟩
      · intro m' hm'
        cases hm'
      · intro _ sg store
        have hnone : (siweParsePhase ora s).1 = none := by
          simp [siweParsePhase, hp, hp2]
        simp only [verify_siwe_message, hnone]

/-- Witness for C8 at a concrete always-failing parser: both attempts are
recorded, verification fails with InvalidSignature leaving the store intact,
and the scanner rewrites a concrete 40-hex-digit address while copying a
non-matching head character. -/
theorem siwe_parse_two_attempts_witness :
    (siweParsePhase exFailOracle "abc").2
        = ["abc", normalize_siwe_message exFailOracle.checksum "abc"]
  ∧ verify_siwe_message exFailOracle "abc" "sig" ["n"]
        = (Except.error AppError.InvalidSignature, ["n"])
  ∧ normList exFailOracle.checksum ('0' :: 'x' :: (List.replicate 40 'a' ++ ['!']))
        = (exFailOracle.checksum (String.mk ('0' :: 'x' :: List.replicate 40 'a'))).data
            ++ normList exFailOracle.checksum ['!']
  ∧ normList exFailOracle.checksum ['!'] = '!' :: normList exFailOracle.checksum [] := by
  have h := siwe_parse_two_attempts exFailOracle "abc"
  have h3 := h.2.2.1 rfl
  exact ⟨h3.1, h3.2.2 rfl "sig" ["n"],
    h.2.2.2.2.1 (List.replicate 40 'a') ['!'] (by decide) (by decide),
    h.2.2.2.2.2 '!' [] (by decide)⟩

/-- Claim C9: the session-token round trip. A token issued at `now` verifies
at any instant inside the 24-hour window and yields claims whose subject is
the identity's address, issued-at is `now` and expiry is `now` plus 24 hours;
and every token-verification failure surfaces as AuthenticationFailed. -/
theorem jwt_round_trip (secret : String) (now now2 : Int) (ua : UserAuth)
    (h1 : now ≤ now2) (h2 : now2 < now + 86400) :
    (verify_jwt secret now2 (generate_jwt secret now ua)
       = Except.ok { sub := ua.address, exp := now + 86400, iat := now, ens := ua.ens_name })
  ∧ (∀ (sec : String) (n : Int) (t : Jwt) (e : AppError),
       verify_jwt sec n t = Except.error e →
         ∃ emsg, e = AppError.AuthenticationFailed emsg) := by
  constructor
  · have hexp : (generate_jwt secret now ua).claims.exp = now + 86400 := rfl
    have hd : decode_jwt secret now2 (generate_jwt secret now ua)
        = Except.ok (generate_jwt secret now ua).claims := by
      unfold decode_jwt
      rw [if_pos (show (generate_jwt secret now ua).secret = secret from rfl)]
      rw [if_neg (show ¬ ((generate_jwt secret now ua).claims.exp < now2 - 60) from by
        rw [hexp]; omega)]
    simp only [verify_jwt, hd]
    rfl
  · intro sec n t e hv
    simp only [verify_jwt] at hv
    cases hd : decode_jwt sec n t with
    | ok c =>
      rw [hd] at hv
      cases hv
    | error emsg =>
      rw [hd] at hv
      cases hv
      exact ⟨emsg, rfl⟩

/-- Witness for C9: a token issued at time 0 verifies at time 100 with the
expected claims. -/
theorem jwt_round_trip_witness :
    verify_jwt "k" 100 (generate_jwt "k" 0 exUA)
      = Except.ok { sub := exUA.address, exp := 0 + 86400, iat := 0, ens := exUA.ens_name } :=
  (jwt_round_trip "k" 0 100 exUA (by decide) (by decide)).1

/-- Claim C5: a decoded swap whose delta magnitudes are both below the
materiality threshold yields no global ChainEvent broadcast; one with at
least one magnitude at or above the threshold yields exactly one. The
magnitude bound 2^128 is the domain of the `as_u128` cast in the source. -/
theorem swap_materiality_filter (ev : SwapEvent) (pool tx : String) (blk : Nat)
    (h0 : ev.amount_0.natAbs < 2 ^ 128) (h1 : ev.amount_1.natAbs < 2 ^ 128) :
    (ev.amount_0.natAbs < materiality_threshold ∧ ev.amount_1.natAbs < materiality_threshold →
       swap_broadcasts ev pool tx blk = [])
  ∧ (materiality_threshold ≤ ev.amount_0.natAbs ∨ materiality_threshold ≤ ev.amount_1.natAbs →
       (swap_broadcasts ev pool tx blk).length = 1) := by
  constructor
  · intro hlt
    simp only [swap_broadcasts, handle_swap_event, if_pos hlt]
    rfl
  · intro hge
    have hcond : ¬ (ev.amount_0.natAbs < materiality_threshold
        ∧ ev.amount_1.natAbs < materiality_threshold) := by
      rcases hge with h | h
      · intro hcon
        omega
      · intro hcon
        omega
    simp only [swap_broadcasts, handle_swap_event, if_neg hcond]
    rfl

/-- Witness for C5: a small swap is discarded, a threshold-sized swap is
broadcast exactly once. -/
theorem swap_materiality_filter_witness :
    swap_broadcasts exSwapSmall "p" "t" 1 = []
  ∧ (swap_broadcasts exSwapLarge "p" "t" 1).length = 1 :=
  ⟨(swap_materiality_filter exSwapSmall "p" "t" 1 (by decide) (by decide)).1 (by decide),
   (swap_materiality_filter exSwapLarge "p" "t" 1 (by norm_num [exSwapLarge])
      (by decide)).2 (Or.inl (by norm_num [exSwapLarge, materiality_threshold]))⟩

/-- Claim C7: while Authenticated, either authenticate command fails with
AuthenticationFailed "Already authenticated" leaving the registry, the
connection state, and the broadcast logs untouched; while Unauthenticated, any
non-authenticate command fails with AuthenticationFailed "Not authenticated"
and the connection loop continues. -/
theorem auth_state_machine_gating (ora : Oracles) (uuid : String)
    (app : AppState) (conn : ConnState) :
    (conn.authenticated = true →
      ∀ m sg a n : String,
        handle_client_message ora uuid (ClientMessage.Authenticate m sg) app conn
          = StepOut.noop
              (Except.error (AppError.AuthenticationFailed "Already authenticated")) app conn
      ∧ handle_client_message ora uuid (ClientMessage.SimpleAuth a m sg n) app conn
          = StepOut.noop
              (Except.error (AppError.AuthenticationFailed "Already authenticated")) app conn
      ∧ connection_continues
          (handle_client_message ora uuid (ClientMessage.Authenticate m sg) app conn) = true)
  ∧ (conn.authenticated = false →
      ∀ cmd, isAuthCmd cmd = false →
        handle_client_message ora uuid cmd app conn
          = StepOut.noop
              (Except.error (AppError.AuthenticationFailed "Not authenticated")) app conn
      ∧ connection_continues (handle_client_message ora uuid cmd app conn) = true) := by
  constructor
  · intro hauth m sg a n
    have e1 : handle_client_message ora uuid (ClientMessage.Authenticate m sg) app conn
        = StepOut.noop
            (Except.error (AppError.AuthenticationFailed "Already authenticated")) app conn := by
      simp [handle_client_message, hauth]
    have e2 : handle_client_message ora uuid (ClientMessage.SimpleAuth a m sg n) app conn
        = StepOut.noop
            (Except.error (AppError.AuthenticationFailed "Already authenticated")) app conn := by
      simp [handle_client_message, hauth]
    exact ⟨e1, e2, by rw [e1]; rfl⟩
  · intro hna cmd hcmd
    have e : handle_client_message ora uuid cmd app conn
        = StepOut.noop
            (Except.error (AppError.AuthenticationFailed "Not authenticated")) app conn := by
      cases cmd with
      | Authenticate m sg => simp [isAuthCmd] at hcmd
      | SimpleAuth a m sg n => simp [isAuthCmd] at hcmd
      | SendText room text => simp [handle_client_message, hna]
      | JoinRoom room => simp [handle_client_message, hna]
      | LeaveRoom room => simp [handle_client_message, hna]
      | Ping => simp [handle_client_message, hna]
    exact ⟨e, by rw [e]; rfl⟩

/-- Witness for C7: a repeated authenticate on an authenticated connection and
a ping on an unauthenticated one. -/
theorem auth_state_machine_gating_witness :
    handle_client_message exOracles "u" (ClientMessage.Authenticate "m" "s") initialState exConnB
      = StepOut.noop
          (Except.error (AppError.AuthenticationFailed "Already authenticated"))
          initialState exConnB
  ∧ handle_client_message exOracles "u" ClientMessage.Ping initialState initialConn
      = StepOut.noop
          (Except.error (AppError.AuthenticationFailed "Not authenticated"))
          initialState initialConn
  ∧ connection_continues
      (handle_client_message exOracles "u" ClientMessage.Ping initialState initialConn) = true := by
  have h := auth_state_machine_gating exOracles "u" initialState exConnB
  have h2 := auth_state_machine_gating exOracles "u" initialState initialConn
  have ha := h.1 rfl "m" "s" "a" "n"
  have hb := h2.2 rfl ClientMessage.Ping rfl
  exact ⟨ha.1, hb.1, hb.2⟩

theorem handle_client_message_send_text_err (ora : Oracles) (uuid : String)
    (app : AppState) (conn : ConnState) (addr room text : String) (e : AppError)
    (hauth : conn.authenticated = true) (haddr : conn.user_address = some addr)
    (hsend : handle_send_text app addr room text = Except.error e) :
    handle_client_message ora uuid (ClientMessage.SendText room text) app conn
      = StepOut.noop (Except.error e) app conn := by
  simp [handle_client_message, hauth, haddr, hsend]

/-- Claim C6: for an authenticated session, a send-text whose trimmed text is
empty fails with InvalidRequest, one whose text exceeds 1000 characters fails
with InvalidRequest, and one targeting a room the session has not joined fails
with AuthorizationFailed; in every failure case nothing is broadcast, no state
changes, and the connection remains open. -/
theorem send_text_validation (ora : Oracles) (uuid : String) (app : AppState)
    (conn : ConnState) (addr room text : String)
    (hauth : conn.authenticated = true) (haddr : conn.user_address = some addr) :
    ((rustTrim text).isEmpty = true →
       handle_client_message ora uuid (ClientMessage.SendText room text) app conn
         = StepOut.noop
             (Except.error (AppError.InvalidRequest "Message cannot be empty")) app conn)
  ∧ (1000 < text.length →
       ∃ emsg, handle_client_message ora uuid (ClientMessage.SendText room text) app conn
         = StepOut.noop (Except.error (AppError.InvalidRequest emsg)) app conn)
  ∧ (∀ c, mapLookup addr app.clients = some c → c.current_rooms.contains room = false →
       (rustTrim text).isEmpty = false → text.utf8ByteSize ≤ 1000 →
       handle_client_message ora uuid (ClientMessage.SendText room text) app conn
         = StepOut.noop
             (Except.error (AppError.AuthorizationFailed "User not in room")) app conn)
  ∧ (∀ (o : StepOut) (e : AppError), o.result = Except.error e →
       connection_continues o = true) := by
  refine ⟨?_, ?_, ?_, ?_⟩
  · intro hempty
    apply handle_client_message_send_text_err ora uuid app conn addr room text _ hauth haddr
    simp [handle_send_text, hempty]
  · intro hlong
    have hbytes : 1000 < text.utf8ByteSize :=
      lt_of_lt_of_le hlong (length_le_utf8ByteSize text)
    by_cases hempty : (rustTrim text).isEmpty = true
    · refine ⟨"Message cannot be empty", ?_⟩
      apply handle_client_message_send_text_err ora uuid app conn addr room text _ hauth haddr
      simp [handle_send_text, hempty]
    · refine ⟨"Message too long (max 1000 characters)", ?_⟩
      apply handle_client_message_send_text_err ora uuid app conn addr room text _ hauth haddr
      simp only [Bool.not_eq_true] at hempty
      simp [handle_send_text, hempty, hbytes]
  · intro c hc hroom hempty hbytes
    apply handle_client_message_send_text_err ora uuid app conn addr room text _ hauth haddr
    have hnotlong : ¬ (text.utf8ByteSize > 1000) := by omega
    simp [handle_send_text, hempty, hnotlong, hc, hroom]
    intro hmem
    have hmem' : c.current_rooms.contains room = true := List.elem_iff.mpr hmem
    rw [hmem'] at hroom
    simp at hroom
  · intro o e he
    unfold connection_continues
    rw [he]

/-- Witness for C6: the three rejection cases at a concrete session that has
joined only the default room, including a text consisting solely of the
Unicode ideographic space U+3000, which Rust's trim strips to empty. -/
theorem send_text_validation_witness :
    handle_client_message exOracles "u" (ClientMessage.SendText "general" "   ") exStateG exConnB
      = StepOut.noop
          (Except.error (AppError.InvalidRequest "Message cannot be empty")) exStateG exConnB
  ∧ handle_client_message exOracles "u" (ClientMessage.SendText "general" "　　")
        exStateG exConnB
      = StepOut.noop
          (Except.error (AppError.InvalidRequest "Message cannot be empty")) exStateG exConnB
  ∧ (∃ emsg,
      handle_client_message exOracles "u" (ClientMessage.SendText "general" exLongText)
          exStateG exConnB
        = StepOut.noop (Except.error (AppError.InvalidRequest emsg)) exStateG exConnB)
  ∧ handle_client_message exOracles "u" (ClientMessage.SendText "other" "hi") exStateG exConnB
      = StepOut.noop
          (Except.error (AppError.AuthorizationFailed "User not in room")) exStateG exConnB := by
  have h1 := send_text_validation exOracles "u" exStateG exConnB "0xB" "general" "   " rfl rfl
  have h1u := send_text_validation exOracles "u" exStateG exConnB "0xB" "general" "　　"
    rfl rfl
  have h2 := send_text_validation exOracles "u" exStateG exConnB "0xB" "general" exLongText rfl rfl
  have h3 := send_text_validation exOracles "u" exStateG exConnB "0xB" "other" "hi" rfl rfl
  refine ⟨h1.1 (by decide), h1u.1 (by decide), h2.2.1 ?_,
    h3.2.2.1 exClientG rfl (by decide) (by decide) (by decide)⟩
  show 1000 < exLongText.length
  set_option maxRecDepth 8192 in decide

theorem Consistent_initial : Consistent initialState := by
  constructor
  · intro a c hac r hr
    simp [initialState, mapLookup] at hac
  · intro r rm hrm a ha
    simp only [initialState, mapLookup] at hrm
    by_cases hg : "general" = r
    · rw [if_pos hg] at hrm
      cases hrm
      simp [newRoom] at ha
    · rw [if_neg hg] at hrm
      simp [mapLookup] at hrm

/-- Claim C2, counterexample: from the initial state, a joinRoom for an
address with no existing session leaves the address orphaned in the room's
member set, so the registry is not mutually consistent after that
interleaving. -/
theorem registry_consistency_counterexample :
    ¬ Consistent (applyOps [RegOp.joinR "0xA" "general"] initialState) := by
  intro h
  have hroom : mapLookup "general" (applyOps [RegOp.joinR "0xA" "general"] initialState).rooms
      = some { name := "general", users := ["0xA"], message_history := [], max_history := 100 } := by
    decide
  obtain ⟨c, hc, -⟩ := h.2 "general" _ hroom "0xA" (by decide)
  have hnone : mapLookup "0xA" (applyOps [RegOp.joinR "0xA" "general"] initialState).clients
      = none := by decide
  rw [hnone] at hc
  cases hc

/-- Claim C2 (amended): from a mutually consistent registry state, leaveRoom
and removeSession preserve mutual consistency unconditionally, joinRoom
preserves it whenever the target address has an existing session, any
interleaving whose joins all target addresses with existing sessions preserves
it, and the session-to-room direction is preserved by every interleaving. -/
theorem registry_consistency (s : AppState) (hs : Consistent s) :
    (∀ a r, Consistent (leave_room a r s))
  ∧ (∀ a, Consistent (remove_client a s).1)
  ∧ (∀ a r, (mapLookup a s.clients).isSome = true → Consistent (join_room a r s).1)
  ∧ (∀ ops, runGuarded ops s = true → Consistent (applyOps ops s))
  ∧ (∀ ops, Dir1 (applyOps ops s)) :=
  ⟨fun a r => Consistent_leave s hs a r,
   fun a => Consistent_remove s hs a,
   fun a r h => Consistent_join s hs a r h,
   fun ops h => Consistent_guarded_run ops s hs h,
   fun ops => Dir1_any_run ops s hs.1⟩

/-- Witness for C2 at the initial state and a concrete guarded run. -/
theorem registry_consistency_witness :
    Consistent (applyOps [RegOp.leaveR "0xA" "general", RegOp.removeS "0xA"] initialState)
  ∧ Dir1 (applyOps [RegOp.joinR "0xA" "general"] initialState) := by
  have h := registry_consistency initialState Consistent_initial
  exact ⟨h.2.2.2.1 [RegOp.leaveR "0xA" "general", RegOp.removeS "0xA"] (by decide),
         h.2.2.2.2 [RegOp.joinR "0xA" "general"]⟩

/-- Claim C3, counterexample: disconnecting the session of `0xA`, a member of
rooms A and B, emits no user-left broadcast at all for either room (the claim
asserts exactly one per room). -/
theorem disconnect_cleanup_counterexample :
    (connection_cleanup exConnA exStateAB).2.2.countP (isUserLeftIn "A") ≠ 1
  ∧ (connection_cleanup exConnA exStateAB).2.2.countP (isUserLeftIn "B") ≠ 1 := by
  decide

/-- Claim C3 (amended): disconnecting an authenticated session performs the
room-leave mutation exactly once per joined room and removes the address from
every joined room's member set and the session from the session map, but the
disconnect cleanup emits no user-left broadcast. -/
theorem disconnect_cleanup (s : AppState) (addr : String) (c : Client)
    (hc : mapLookup addr s.clients = some c) (hnd : c.current_rooms.Nodup) :
    ((remove_client addr s).2 = c.current_rooms)
  ∧ (∀ r ∈ c.current_rooms, (remove_client addr s).2.count r = 1)
  ∧ (∀ r ∈ c.current_rooms, ∀ rm,
       mapLookup r (remove_client addr s).1.rooms = some rm → addr ∉ rm.users)
  ∧ mapLookup addr (remove_client addr s).1.clients = none
  ∧ (∀ conn : ConnState, conn.user_address = some addr →
       (connection_cleanup conn s).2.2 = ([] : List (String × ServerMessage))) := by
  have htrace : (remove_client addr s).2 = c.current_rooms := by
    simp only [remove_client, hc]
  have hfold : (remove_client addr s).1
      = c.current_rooms.foldl (fun acc x => leave_room addr x acc)
          { s with clients := mapErase addr s.clients } := by
    simp only [remove_client, hc]
  refine ⟨htrace, ?_, ?_, ?_, ?_⟩
  · intro r hr
    rw [htrace]
    exact List.count_eq_one_of_mem hnd hr
  · intro r hr rm hrm
    rw [hfold] at hrm
    exact fold_leave_mem_absent addr c.current_rooms _ r hr rm hrm
  · rw [hfold]
    exact fold_leave_clients_none addr c.current_rooms _ (mapLookup_erase_self addr s.clients)
  · intro conn hconn
    simp only [connection_cleanup, hconn]

/-- Witness for C3 at the concrete two-room session. -/
theorem disconnect_cleanup_witness :
    ((remove_client "0xA" exStateAB).2 = exClientAB.current_rooms)
  ∧ (∀ rm, mapLookup "A" (remove_client "0xA" exStateAB).1.rooms = some rm → "0xA" ∉ rm.users)
  ∧ (∀ rm, mapLookup "B" (remove_client "0xA" exStateAB).1.rooms = some rm → "0xA" ∉ rm.users)
  ∧ mapLookup "0xA" (remove_client "0xA" exStateAB).1.clients = none := by
  have h := disconnect_cleanup exStateAB "0xA" exClientAB rfl (by decide)
  exact ⟨h.1, h.2.2.1 "A" (by decide), h.2.2.1 "B" (by decide), h.2.2.2.1⟩

/-- Claim C4: publishing any sequence of messages to a room with the standard
capacity leaves its history the capacity-bounded suffix of the published
sequence (appended to the prior history), never exceeding 100 entries; in
particular 150 messages into an initially empty room leave exactly the most
recent 100, in publish order. -/
theorem room_history_bounded (s : AppState) (room_name : String)
    (msgs : List ServerMessage) (room₀ : Room)
    (h : mapLookup room_name s.rooms = some room₀)
    (hmax : room₀.max_history = 100)
    (hlen : room₀.message_history.length ≤ 100) :
    ∃ room₁, mapLookup room_name (publish_sequence room_name msgs s).rooms = some room₁
      ∧ room₁.max_history = 100
      ∧ room₁.message_history
          = (room₀.message_history ++ msgs).drop
              (room₀.message_history.length + msgs.length - 100)
      ∧ room₁.message_history.length ≤ 100
      ∧ (room₀.message_history = [] → msgs.length = 150 →
           room₁.message_history = msgs.drop 50) := by
  have hist : msgs.foldl (push_history room₀.max_history) room₀.message_history
      = (room₀.message_history ++ msgs).drop
          (room₀.message_history.length + msgs.length - 100) := by
    rw [hmax]
    exact foldl_push_history msgs room₀.message_history hlen
  refine ⟨_, publish_sequence_history room_name msgs s room₀ h, hmax, hist, ?_, ?_⟩
  · show (msgs.foldl (push_history room₀.max_history) room₀.message_history).length ≤ 100
    rw [hist]
    simp only [List.length_drop, List.length_append]
    omega
  · intro h0 h150
    show msgs.foldl (push_history room₀.max_history) room₀.message_history = msgs.drop 50
    rw [hist, h0, h150]
    norm_num

/-- Witness for C4: 150 messages into the freshly created default room leave
exactly the most recent 100. -/
theorem room_history_bounded_witness :
    ∃ room₁,
      mapLookup "general" (publish_sequence "general" exMsgs150 initialState).rooms = some room₁
      ∧ room₁.max_history = 100
      ∧ room₁.message_history
          = ((newRoom "general").message_history ++ exMsgs150).drop
              ((newRoom "general").message_history.length + exMsgs150.length - 100)
      ∧ room₁.message_history.length ≤ 100
      ∧ ((newRoom "general").message_history = [] → exMsgs150.length = 150 →
           room₁.message_history = exMsgs150.drop 50) :=
  room_history_bounded initialState "general" exMsgs150 (newRoom "general") (by decide) rfl
    (by decide)

end ChainTalk
